import Mathlib

/-!
Shallow embedding of the MercadoSniper canonical-vehicle entity-resolution
core (`backend/services/canonical_vehicle_service.py`) and proofs about the
spec claims for it.

Conventions of the embedding:
* Python strings are `String` / `List Char`; `None`-able attributes are
  `Option String` (Python truthiness: `None` and `""` are falsy).
* Python floats are modelled as `ℚ` (all arithmetic in the verified paths is
  on decimal literals and exact sums/quotients).
* The document store is a `DBState` holding the two collections as lists in
  insertion order; Mongo `find` returns documents in that order.
* Python exceptions inside the matching/scoring computations
  (`ZeroDivisionError` in `_similar_engines`) are modelled with
  `Except Unit`; the service's `try/except` handlers collapse them exactly
  where the source does.
* Character classes of the `re` patterns are modelled over ASCII
  (`\w` = letter/digit/underscore, `\s` = space/tab/newline/CR/VT/FF).
-/

instance exceptDecEq {ε α : Type} [DecidableEq ε] [DecidableEq α] :
    DecidableEq (Except ε α) := fun a b =>
  match a, b with
  | .ok x, .ok y =>
    if h : x = y then .isTrue (by rw [h]) else .isFalse (by intro hc; cases hc; exact h rfl)
  | .ok _, .error _ => .isFalse (by intro hc; cases hc)
  | .error _, .ok _ => .isFalse (by intro hc; cases hc)
  | .error x, .error y =>
    if h : x = y then .isTrue (by rw [h]) else .isFalse (by intro hc; cases hc; exact h rfl)

/-- Python truthiness for an optional string: `None` and `""` are falsy. -/
def strTruthy : Option String → Bool
  | none => false
  | some s => s ≠ ""

/-- ASCII model of the `re` class `[-_]` used by `re.sub(r'[-_]+', ' ', text)`. -/
def isHyphChar (c : Char) : Bool := c.toNat == 45 || c.toNat == 95

/-- ASCII model of the `re` class `\s` (space, TAB, LF, CR, VT, FF). -/
def isPySpace (c : Char) : Bool :=
  c.toNat == 32 || c.toNat == 9 || c.toNat == 10 || c.toNat == 13 ||
  c.toNat == 11 || c.toNat == 12

/-- ASCII model of the `re` class `\w` (letter, digit or underscore). -/
def isWordChar (c : Char) : Bool :=
  (48 ≤ c.toNat && c.toNat ≤ 57) || (65 ≤ c.toNat && c.toNat ≤ 90) ||
  (97 ≤ c.toNat && c.toNat ≤ 122) || c.toNat == 95

/-- State machine for `re.sub(r'[-_]+', ' ', text)`: each maximal run of
hyphens/underscores becomes a single space.  The Boolean records whether the
previous character belonged to such a run. -/
def subHyphAux : Bool → List Char → List Char
  | _, [] => []
  | inRun, c :: rest =>
    if isHyphChar c then
      if inRun then subHyphAux true rest else ' ' :: subHyphAux true rest
    else c :: subHyphAux false rest

/-- State machine for `re.sub(r'\s+', ' ', text)`: each maximal whitespace run
becomes a single space. -/
def subSpaceAux : Bool → List Char → List Char
  | _, [] => []
  | inRun, c :: rest =>
    if isPySpace c then
      if inRun then subSpaceAux true rest else ' ' :: subSpaceAux true rest
    else c :: subSpaceAux false rest

/-- Python `str.strip()`: drop leading and trailing whitespace. -/
def stripChars (l : List Char) : List Char :=
  ((l.dropWhile isPySpace).reverse.dropWhile isPySpace).reverse

/-- Embedding of `CanonicalVehicleService._normalize_string` on the character
list of a non-`None` input: hyphen/underscore runs to a space, remove other
punctuation, collapse whitespace, lowercase, strip. -/
def normChars (l : List Char) : List Char :=
  stripChars
    ((subSpaceAux false
        ((subHyphAux false l).filter (fun c => isWordChar c || isPySpace c))).map
      Char.toLower)

/-- Embedding of `CanonicalVehicleService._normalize_string`: `None` and `""`
normalize to `""` (the `if not text` guard), otherwise the pipeline above. -/
def normalize_string : Option String → List Char
  | none => []
  | some s => if s = "" then [] else normChars s.data

/-- Python `str.split()` on a character list: maximal runs of non-whitespace
characters, in order (used for the engine token sets). -/
def splitWordsAux (cur : List Char) : List Char → List (List Char)
  | [] => if cur = [] then [] else [cur.reverse]
  | c :: rest =>
    if isPySpace c then
      if cur = [] then splitWordsAux [] rest else cur.reverse :: splitWordsAux [] rest
    else splitWordsAux (c :: cur) rest

/-- Python `str.split()` (no separator argument). -/
def splitWords (l : List Char) : List (List Char) := splitWordsAux [] l

/-- Numeric value of a list of decimal digit characters. -/
def digitsToNat (l : List Char) : Nat :=
  l.foldl (fun acc c => 10 * acc + (c.toNat - 48)) 0

/-- Exact rational value of the decimal token `intPart.fracPart` (the regex
`\d+\.?\d*` allows an empty fractional part). -/
def decTokenVal (intPart fracPart : List Char) : ℚ :=
  (digitsToNat intPart : ℚ) + (digitsToNat fracPart : ℚ) / (10 : ℚ) ^ fracPart.length

/-- State machine for `re.findall(r'\d+\.?\d*', s)`, parsing each matched
token to its exact rational value.  The state holds the digits of the number
currently being read: integer part, and the fractional digits once a dot was
consumed. -/
def findNumsAux : Option (List Char × Option (List Char)) → List Char → List ℚ
  | none, [] => []
  | some (ip, none), [] => [decTokenVal ip.reverse []]
  | some (ip, some fp), [] => [decTokenVal ip.reverse fp.reverse]
  | none, c :: rest =>
    if c.isDigit then findNumsAux (some ([c], none)) rest else findNumsAux none rest
  | some (ip, none), c :: rest =>
    if c.isDigit then findNumsAux (some (c :: ip, none)) rest
    else if c.toNat == 46 then findNumsAux (some (ip, some [])) rest
    else decTokenVal ip.reverse [] :: findNumsAux none rest
  | some (ip, some fp), c :: rest =>
    if c.isDigit then findNumsAux (some (ip, some (c :: fp))) rest
    else decTokenVal ip.reverse fp.reverse :: findNumsAux none rest

/-- All decimal tokens of `re.findall(r'\d+\.?\d*', s)` as exact rationals. -/
def findNums (l : List Char) : List ℚ := findNumsAux none l

/-- Lowercased character list of a string (Python `str.lower()`, ASCII). -/
def lowerChars (s : String) : List Char := s.data.map Char.toLower

/-- Modelled from the spec: the scorer calls Python `difflib.SequenceMatcher(None, s1, s2).ratio()`,
a library routine outside this repository; spec §4.2 describes it as a
normalized edit-distance-style string similarity, e.g.
longest-common-subsequence-based.  `lcsLen` is the length of a longest common
subsequence, written with `List.rec` so that it reduces definitionally. -/
def lcsLen (l1 : List Char) : List Char → Nat :=
  List.rec (motive := fun _ => List Char → Nat)
    (fun _ => 0)
    (fun a _ ih l2 =>
      List.rec (motive := fun _ => Nat) 0
        (fun b bs ih2 => if a = b then ih bs + 1 else max ih2 (ih (b :: bs))) l2)
    l1

/-- Modelled from the spec: similarity value `2*M/T` of §4.2 with `M` the
common-subsequence length and `T` the total length, and `1.0` when both
strings are empty (difflib returns 1.0 for `T = 0`). -/
def strSim (a b : List Char) : ℚ :=
  if a.length + b.length = 0 then 1
  else 2 * (lcsLen a b : ℚ) / ((a.length : ℚ) + (b.length : ℚ))

/-- Comparable configuration attributes read from both a `VehicleCreate`
payload and a stored canonical-vehicle document (`year` is a string in the
source models). -/
structure Attrs where
  brand : Option String
  model : Option String
  year : Option String
  edition : Option String
  engine : Option String
deriving DecidableEq

/-- Embedding of `CanonicalVehicleService._similar_engines` on two non-`None`
engine strings.  `Except.error ()` is the `ZeroDivisionError` raised by
`overlap / len(engine1_words | engine2_words)` when both token sets are
empty and no close numeric pair was found. -/
def similar_engines (engine1 engine2 : String) : Except Unit Bool :=
  if engine1 = "" ∨ engine2 = "" then .ok false
  else
    let nums1 := findNums (lowerChars engine1)
    let nums2 := findNums (lowerChars engine2)
    if nums1.any (fun n1 => nums2.any (fun n2 => decide (|n1 - n2| < 1/10))) then .ok true
    else
      let words1 := (splitWords (normalize_string (some engine1))).toFinset
      let words2 := (splitWords (normalize_string (some engine2))).toFinset
      let overlap := (words1 ∩ words2).card
      if 2 ≤ overlap then .ok true
      else if (words1 ∪ words2).card = 0 then .error ()
      else .ok (decide ((1 : ℚ) / 2 < (overlap : ℚ) / (((words1 ∪ words2).card : ℚ))))

/-- Embedding of `CanonicalVehicleService._is_exact_match`: brand and model
must normalize equal; year, edition, engine are checked only when present on
both sides (and the engine check may raise, propagated here). -/
def is_exact_match (v c : Attrs) : Except Unit Bool :=
  if ¬ (normalize_string v.brand = normalize_string c.brand) then .ok false
  else if ¬ (normalize_string v.model = normalize_string c.model) then .ok false
  else if strTruthy v.year ∧ strTruthy c.year ∧ v.year ≠ c.year then .ok false
  else if strTruthy v.edition ∧ strTruthy c.edition ∧
      ¬ (normalize_string v.edition = normalize_string c.edition) then .ok false
  else if strTruthy v.engine ∧ strTruthy c.engine then
    match similar_engines (v.engine.getD "") (c.engine.getD "") with
    | .error u => .error u
    | .ok b => if b then .ok true else .ok false
  else .ok true

/-- Final step of `_calculate_similarity`: `score / total_weight if total_weight > 0 else 0.0`. -/
def simFinal (score total_weight : ℚ) : ℚ :=
  if 0 < total_weight then score / total_weight else 0

/-- Embedding of `CanonicalVehicleService._calculate_similarity`: weighted
average over the fields present (truthy) on both sides — brand 0.25,
model 0.25, year 0.20 (exact), edition 0.20, engine 0.10
(`_similar_engines`, which may raise). -/
def calculate_similarity (v c : Attrs) : Except Unit ℚ :=
  let bp := strTruthy v.brand && strTruthy c.brand
  let mp := strTruthy v.model && strTruthy c.model
  let yp := strTruthy v.year && strTruthy c.year
  let ep := strTruthy v.edition && strTruthy c.edition
  let gp := strTruthy v.engine && strTruthy c.engine
  let s1 : ℚ := if bp then strSim (normalize_string v.brand) (normalize_string c.brand) * (1/4) else 0
  let w1 : ℚ := if bp then 1/4 else 0
  let s2 : ℚ := if mp then strSim (normalize_string v.model) (normalize_string c.model) * (1/4) else 0
  let w2 : ℚ := if mp then 1/4 else 0
  let s3 : ℚ := if yp then (if v.year = c.year then 1/5 else 0) else 0
  let w3 : ℚ := if yp then 1/5 else 0
  let s4 : ℚ := if ep then strSim (normalize_string v.edition) (normalize_string c.edition) * (1/5) else 0
  let w4 : ℚ := if ep then 1/5 else 0
  if gp then
    match similar_engines (v.engine.getD "") (c.engine.getD "") with
    | .error u => .error u
    | .ok b =>
      .ok (simFinal (s1 + s2 + s3 + s4 + (if b then (1 : ℚ) else 0) * (1/10))
        (w1 + w2 + w3 + w4 + 1/10))
  else .ok (simFinal (s1 + s2 + s3 + s4) (w1 + w2 + w3 + w4))

/-- Stored canonical-vehicle document (collection `canonical_vehicles`). -/
structure CanonicalRec where
  id : String
  attrs : Attrs
  transmission : Option String
  fuel_type : Option String
  doors : Option Nat
  body_type : Option String
  status : String
  total_listings : Nat
  active_listings : Nat
  total_views : Nat
  min_price : Option ℚ
  max_price : Option ℚ
  avg_price : Option ℚ
  median_price : Option ℚ
  average_kilometers : Option ℚ
  created_at : Nat
  updated_at : Nat
  last_market_update : Option Nat
deriving DecidableEq

/-- Stored listing document (collection `vehicles`), restricted to the fields
the verified operations read. -/
structure ListingRec where
  id : String
  canonical_vehicle_id : Option String
  status : String
  price_numeric : Option ℚ
  views_count : Option Nat
  kilometers : Option String
deriving DecidableEq

/-- The document store: both collections in insertion order, plus a flag
driving the storage-failure behaviour of `insert_one`. -/
structure DBState where
  canonical_vehicles : List CanonicalRec
  vehicles : List ListingRec
  insert_fails : Bool
deriving DecidableEq

/-- Case-insensitive equality of two optional strings, the semantics of the
anchored `^...$` case-insensitive regex of the narrow query (a missing
document field never matches). -/
def ciEqOpt (x y : Option String) : Bool :=
  match x, y with
  | some s, some t => lowerChars s == lowerChars t
  | _, _ => false

/-- Case-insensitive substring containment, the semantics of the unanchored
case-insensitive regex of the broad query on metacharacter-free patterns. -/
def isSubstrCI (needle hay : String) : Bool :=
  (lowerChars hay).tails.any (fun t => (lowerChars needle).isPrefixOf t)

/-- Narrow query of `_find_matching_canonical`: brand/model anchored
case-insensitive equality and exact year equality, each only when the
listing's field is truthy. -/
def narrowPred (a : Attrs) (c : CanonicalRec) : Bool :=
  (if strTruthy a.brand then ciEqOpt a.brand c.attrs.brand else true) &&
  (if strTruthy a.model then ciEqOpt a.model c.attrs.model else true) &&
  (if strTruthy a.year then c.attrs.year == a.year else true)

/-- Broad query of `_find_matching_canonical`: case-insensitive substring
match of the listing's brand and model (both known truthy at the call). -/
def broadPred (a : Attrs) (c : CanonicalRec) : Bool :=
  (match a.brand, c.attrs.brand with
   | some n, some h => isSubstrCI n h
   | _, _ => false) &&
  (match a.model, c.attrs.model with
   | some n, some h => isSubstrCI n h
   | _, _ => false)

/-- First loop of `_find_matching_canonical`: return the first candidate that
`_is_exact_match` accepts; an exception aborts the whole search. -/
def exactLoop (a : Attrs) : List CanonicalRec → Except Unit (Option String)
  | [] => .ok none
  | c :: rest =>
    match is_exact_match a c.attrs with
    | .error u => .error u
    | .ok true => .ok (some c.id)
    | .ok false => exactLoop a rest

/-- Fuzzy loops of `_find_matching_canonical`: return the first candidate
whose `_calculate_similarity` score reaches the threshold; an exception
aborts the whole search. -/
def fuzzyLoop (a : Attrs) (threshold : ℚ) : List CanonicalRec → Except Unit (Option String)
  | [] => .ok none
  | c :: rest =>
    match calculate_similarity a c.attrs with
    | .error u => .error u
    | .ok s => if threshold ≤ s then .ok (some c.id) else fuzzyLoop a threshold rest

/-- Embedding of `_find_matching_canonical` before its `try/except`: narrow
phase (exact loop then 0.90 fuzzy loop) when the query is non-empty, then the
broad phase (0.95 fuzzy loop over at most 50 candidates) when brand and model
are both truthy. -/
def findMatchE (a : Attrs) (db : List CanonicalRec) : Except Unit (Option String) :=
  let hasQuery := strTruthy a.brand || strTruthy a.model || strTruthy a.year
  let narrowStep : Except Unit (Option String) :=
    if hasQuery then
      let narrow := db.filter (narrowPred a)
      match exactLoop a narrow with
      | .error u => .error u
      | .ok (some cid) => .ok (some cid)
      | .ok none => fuzzyLoop a (9/10) narrow
    else .ok none
  match narrowStep with
  | .error u => .error u
  | .ok (some cid) => .ok (some cid)
  | .ok none =>
    if strTruthy a.brand && strTruthy a.model then
      fuzzyLoop a (95/100) ((db.filter (broadPred a)).take 50)
    else .ok none

/-- Embedding of `_find_matching_canonical`: its `except` clause turns any
internal exception into `None` (no match). -/
def find_matching_canonical (a : Attrs) (db : List CanonicalRec) : Option String :=
  match findMatchE a db with
  | .ok r => r
  | .error _ => none

/-- Input payload of `find_or_create_canonical_vehicle` (`VehicleCreate`
fields the operation reads). -/
structure VehicleCreateData where
  attrs : Attrs
  title : Option String
  transmission : Option String
  fuel_type : Option String
  doors : Option Nat
deriving DecidableEq

/-- Python `x or "Unknown"` for the brand/model defaults of the create path. -/
def orUnknown : Option String → String
  | none => "Unknown"
  | some s => if s = "" then "Unknown" else s

/-- Keyword table of `_extract_body_type`, in source (dict insertion) order. -/
def bodyTypes : List (String × List String) :=
  [("sedan", ["sedan", "sedán"]),
   ("hatchback", ["hatchback", "hatch"]),
   ("suv", ["suv", "camioneta"]),
   ("pickup", ["pickup", "pick up", "pick-up"]),
   ("coupe", ["coupe", "coupé"]),
   ("convertible", ["convertible", "cabrio"]),
   ("wagon", ["wagon", "familiar"]),
   ("van", ["van", "furgon", "furgón"])]

/-- Embedding of `_extract_body_type`: first keyword contained in the
lowercased title wins; falsy title gives `None`. -/
def extract_body_type : Option String → Option String
  | none => none
  | some t =>
    if t = "" then none
    else (bodyTypes.find? (fun p => p.2.any (fun kw => isSubstrCI kw t))).map (fun p => p.1)

/-- Embedding of `create_canonical_vehicle` (the fields the verified claims
read; `canonical_title` and the `specifications` mapping are plain data
formatting and are not modelled).  A failing `insert_one` raises, and the
function re-raises (`except ... raise`). -/
def create_canonical_vehicle (now : Nat) (newId : String) (a : Attrs)
    (transmission fuel_type : Option String) (doors : Option Nat)
    (body_type : Option String) (st : DBState) : Except Unit (CanonicalRec × DBState) :=
  if st.insert_fails then .error ()
  else
    let r : CanonicalRec :=
      { id := newId, attrs := a, transmission := transmission, fuel_type := fuel_type,
        doors := doors, body_type := body_type, status := "active",
        total_listings := 0, active_listings := 0, total_views := 0,
        min_price := none, max_price := none, avg_price := none, median_price := none,
        average_kilometers := none, created_at := now, updated_at := now,
        last_market_update := none }
    .ok (r, { st with canonical_vehicles := st.canonical_vehicles ++ [r] })

/-- Body of `find_or_create_canonical_vehicle` before its `try/except`:
match, else create with the "Unknown" defaults and derived body type. -/
def find_or_create_E (now : Nat) (newId : String) (v : VehicleCreateData)
    (st : DBState) : Except Unit (Option String × DBState) :=
  match find_matching_canonical v.attrs st.canonical_vehicles with
  | some cid => .ok (some cid, st)
  | none =>
    match create_canonical_vehicle now newId
        { v.attrs with brand := some (orUnknown v.attrs.brand),
                       model := some (orUnknown v.attrs.model) }
        v.transmission v.fuel_type v.doors (extract_body_type v.title) st with
    | .error u => .error u
    | .ok (r, st2) => .ok (some r.id, st2)

/-- Embedding of `find_or_create_canonical_vehicle`: its `except` clause
catches every exception and returns `None` (state left as it was). -/
def find_or_create_canonical_vehicle (now : Nat) (newId : String)
    (v : VehicleCreateData) (st : DBState) : Option String × DBState :=
  match find_or_create_E now newId v st with
  | .ok res => res
  | .error _ => (none, st)

/-- Python truthiness of the optional numeric price (`0` and `None` falsy). -/
def priceTruthy : Option ℚ → Bool
  | none => false
  | some q => q ≠ 0

/-- Stable insertion into an ascending list (model of Python `sorted` on
rational price values). -/
def insertSorted (x : ℚ) : List ℚ → List ℚ
  | [] => [x]
  | y :: ys => if x ≤ y then x :: y :: ys else y :: insertSorted x ys

/-- Python `sorted(prices)`. -/
def sortPrices (l : List ℚ) : List ℚ := l.foldr insertSorted []

/-- Python `min(prices)` on a non-empty list (`0` on `[]`, unreachable). -/
def listMin : List ℚ → ℚ
  | [] => 0
  | x :: xs => xs.foldl min x

/-- Python `max(prices)` on a non-empty list (`0` on `[]`, unreachable). -/
def listMax : List ℚ → ℚ
  | [] => 0
  | x :: xs => xs.foldl max x

/-- Kilometer parsing of `update_canonical_vehicle_stats`: drop commas and
dots, then `re.search(r'(\d+)', ...)` takes the first maximal digit run. -/
def parseKm (s : String) : Option Nat :=
  let cleaned := s.data.filter (fun c => !(c.toNat == 44 || c.toNat == 46))
  match (cleaned.dropWhile (fun c => !c.isDigit)).takeWhile Char.isDigit with
  | [] => none
  | ds => some (digitsToNat ds)

/-- Mongo `update_one`: rewrite the first document matching the filter. -/
def updateFirst (p : CanonicalRec → Bool) (f : CanonicalRec → CanonicalRec) :
    List CanonicalRec → List CanonicalRec
  | [] => []
  | r :: rest => if p r then f r :: rest else r :: updateFirst p f rest

/-- Lookup of a canonical document by id (first match). -/
def lookupCanonical (cid : String) (st : DBState) : Option CanonicalRec :=
  st.canonical_vehicles.find? (fun r => r.id == cid)

/-- The `$set` document of `update_canonical_vehicle_stats`, applied to the
stored canonical record: counts, views, average kilometers, and
min/max/avg/median over the truthy numeric prices of the active listings
(median is `sorted(prices)[len(prices) // 2]`). -/
def applyStats (now : Nat) (listings : List ListingRec) (r : CanonicalRec) : CanonicalRec :=
  let prices := listings.filterMap
    (fun l => if priceTruthy l.price_numeric then l.price_numeric else none)
  let views := (listings.map (fun l => l.views_count.getD 0)).sum
  let kms := listings.filterMap
    (fun l => match l.kilometers with
      | none => none
      | some ks => if ks = "" then none else parseKm ks)
  let r1 := { r with total_listings := listings.length,
                     active_listings := listings.length,
                     total_views := views, updated_at := now,
                     last_market_update := some now }
  let r2 :=
    if prices.isEmpty then r1
    else { r1 with min_price := some (listMin prices),
                   max_price := some (listMax prices),
                   avg_price := some (prices.sum / (prices.length : ℚ)),
                   median_price := some ((sortPrices prices).getD (prices.length / 2) 0) }
  if kms.isEmpty then r2
  else { r2 with
         average_kilometers := some (((kms.map (fun n => (n : ℚ))).sum / (kms.length : ℚ))) }

/-- Embedding of `update_canonical_vehicle_stats`: no-op when the group has
no active listings, otherwise overwrite the derived fields of the group's
document from the active set in a single `update_one`. -/
def update_canonical_vehicle_stats (now : Nat) (canonical_id : String) (st : DBState) : DBState :=
  let listings := st.vehicles.filter
    (fun l => l.canonical_vehicle_id == some canonical_id && l.status == "active")
  if listings.isEmpty then st
  else
    let canon2 := updateFirst (fun r => r.id == canonical_id) (applyStats now listings)
      st.canonical_vehicles
    { st with canonical_vehicles := canon2 }

/-- Embedding of `merge_canonical_vehicles`: re-point every listing of the
source group to the target, mark the source document `merged` (with a fresh
`updated_at`), refresh the target's statistics, and return whether the
listing update modified any document. -/
def merge_canonical_vehicles (now : Nat) (source_id target_id : String)
    (st : DBState) : Bool × DBState :=
  let moved := (st.vehicles.filter (fun l => l.canonical_vehicle_id == some source_id)).length
  let modifiedCount := if source_id = target_id then 0 else moved
  let vehicles2 := st.vehicles.map
    (fun l => if l.canonical_vehicle_id == some source_id then
        { l with canonical_vehicle_id := some target_id } else l)
  let canon2 := updateFirst (fun r => r.id == source_id)
    (fun r => { r with status := "merged", updated_at := now }) st.canonical_vehicles
  let st2 : DBState := { st with vehicles := vehicles2, canonical_vehicles := canon2 }
  let st3 := update_canonical_vehicle_stats now target_id st2
  (decide (0 < modifiedCount), st3)

/-- Fresh canonical document with the given id and attributes, as
`create_canonical_vehicle` builds it (used for concrete test states). -/
def mkCanon (i : String) (a : Attrs) : CanonicalRec :=
  { id := i, attrs := a, transmission := none, fuel_type := none, doors := none,
    body_type := none, status := "active", total_listings := 0, active_listings := 0,
    total_views := 0, min_price := none, max_price := none, avg_price := none,
    median_price := none, average_kilometers := none, created_at := 0, updated_at := 0,
    last_market_update := none }

/-- Canonical-form invariant satisfied by every `normChars` output: no
hyphen/underscore, only word characters and spaces, every whitespace
character is a plain space, everything lowercase, no two adjacent spaces,
and no leading or trailing space. -/
def NormCanon (l : List Char) : Prop :=
  (∀ c ∈ l, isHyphChar c = false) ∧
  (∀ c ∈ l, (isWordChar c || isPySpace c) = true) ∧
  (∀ c ∈ l, isPySpace c = true → c = ' ') ∧
  (∀ c ∈ l, Char.toLower c = c) ∧
  l.Chain' (fun a b => ¬ (isPySpace a = true ∧ isPySpace b = true)) ∧
  (∀ c ∈ l.head?, isPySpace c = false) ∧
  (∀ c ∈ l.getLast?, isPySpace c = false)

theorem toLower_toNat_of_upper {c : Char} (h1 : 65 ≤ c.toNat) (h2 : c.toNat ≤ 90) :
    (Char.toLower c).toNat = c.toNat + 32 := by
  rw [Char.toLower]
  rw [if_pos ⟨h1, h2⟩]
  have hv : (c.toNat + 32).isValidChar := Or.inl (by omega)
  rw [Char.ofNat, dif_pos hv]
  simp [Char.ofNatAux, Char.toNat, UInt32.toNat]

theorem toLower_eq_self {c : Char} (h : ¬ (65 ≤ c.toNat ∧ c.toNat ≤ 90)) :
    Char.toLower c = c := by
  rw [Char.toLower, if_neg]
  exact fun hc => h ⟨hc.1, hc.2⟩

theorem isPySpace_iff {c : Char} :
    isPySpace c = true ↔
      (c.toNat = 32 ∨ c.toNat = 9 ∨ c.toNat = 10 ∨ c.toNat = 13 ∨ c.toNat = 11 ∨ c.toNat = 12) := by
  simp only [isPySpace, Bool.or_eq_true, beq_iff_eq]
  omega

theorem isHyphChar_iff {c : Char} :
    isHyphChar c = true ↔ (c.toNat = 45 ∨ c.toNat = 95) := by
  simp [isHyphChar]

theorem isWordChar_iff {c : Char} :
    isWordChar c = true ↔
      ((48 ≤ c.toNat ∧ c.toNat ≤ 57) ∨ (65 ≤ c.toNat ∧ c.toNat ≤ 90) ∨
       (97 ≤ c.toNat ∧ c.toNat ≤ 122) ∨ c.toNat = 95) := by
  simp only [isWordChar, Bool.or_eq_true, Bool.and_eq_true, decide_eq_true_eq, beq_iff_eq]
  omega

theorem isPySpace_toLower (c : Char) : isPySpace (Char.toLower c) = isPySpace c := by
  by_cases h : 65 ≤ c.toNat ∧ c.toNat ≤ 90
  · have ht := toLower_toNat_of_upper h.1 h.2
    rw [Bool.eq_iff_iff, isPySpace_iff, isPySpace_iff, ht]
    omega
  · rw [toLower_eq_self h]

theorem isHyphChar_toLower (c : Char) : isHyphChar (Char.toLower c) = isHyphChar c := by
  by_cases h : 65 ≤ c.toNat ∧ c.toNat ≤ 90
  · have ht := toLower_toNat_of_upper h.1 h.2
    rw [Bool.eq_iff_iff, isHyphChar_iff, isHyphChar_iff, ht]
    omega
  · rw [toLower_eq_self h]

theorem isWordChar_toLower (c : Char) (h : isWordChar c = true) :
    isWordChar (Char.toLower c) = true := by
  by_cases hu : 65 ≤ c.toNat ∧ c.toNat ≤ 90
  · have ht := toLower_toNat_of_upper hu.1 hu.2
    rw [isWordChar_iff, ht]
    omega
  · rw [toLower_eq_self hu]
    exact h

theorem toLower_idem (c : Char) : Char.toLower (Char.toLower c) = Char.toLower c := by
  by_cases h : 65 ≤ c.toNat ∧ c.toNat ≤ 90
  · have ht := toLower_toNat_of_upper h.1 h.2
    apply toLower_eq_self
    omega
  · rw [toLower_eq_self h, toLower_eq_self h]

theorem space_toLower : Char.toLower ' ' = ' ' := by decide

theorem mem_subHyphAux {c : Char} :
    ∀ (b : Bool) (l : List Char), c ∈ subHyphAux b l →
      c = ' ' ∨ (c ∈ l ∧ isHyphChar c = false) := by
  intro b l
  induction l generalizing b with
  | nil => intro h; simp [subHyphAux] at h
  | cons d rest ih =>
    intro h
    by_cases hd : isHyphChar d = true
    · by_cases hb : b = true
      · simp only [subHyphAux, hd, if_true, hb] at h
        rcases ih true h with h1 | ⟨h2, h3⟩
        · exact Or.inl h1
        · exact Or.inr ⟨List.mem_cons_of_mem d h2, h3⟩
      · have hb2 : b = false := by revert hb; cases b <;> simp
        subst hb2
        simp only [subHyphAux, hd, if_true, Bool.false_eq_true, if_false] at h
        rcases List.mem_cons.mp h with h1 | h1
        · exact Or.inl h1
        · rcases ih true h1 with h2 | ⟨h3, h4⟩
          · exact Or.inl h2
          · exact Or.inr ⟨List.mem_cons_of_mem d h3, h4⟩
    · have hd2 : isHyphChar d = false := by revert hd; cases isHyphChar d <;> simp
      simp only [subHyphAux, hd2, Bool.false_eq_true, if_false] at h
      rcases List.mem_cons.mp h with h1 | h1
      · exact Or.inr ⟨by rw [h1]; exact List.mem_cons_self d rest, by rw [h1]; exact hd2⟩
      · rcases ih false h1 with h2 | ⟨h3, h4⟩
        · exact Or.inl h2
        · exact Or.inr ⟨List.mem_cons_of_mem d h3, h4⟩

theorem mem_subSpaceAux {c : Char} :
    ∀ (b : Bool) (l : List Char), c ∈ subSpaceAux b l →
      c = ' ' ∨ (c ∈ l ∧ isPySpace c = false) := by
  intro b l
  induction l generalizing b with
  | nil => intro h; simp [subSpaceAux] at h
  | cons d rest ih =>
    intro h
    by_cases hd : isPySpace d = true
    · by_cases hb : b = true
      · simp only [subSpaceAux, hd, if_true, hb] at h
        rcases ih true h with h1 | ⟨h2, h3⟩
        · exact Or.inl h1
        · exact Or.inr ⟨List.mem_cons_of_mem d h2, h3⟩
      · have hb2 : b = false := by revert hb; cases b <;> simp
        subst hb2
        simp only [subSpaceAux, hd, if_true, Bool.false_eq_true, if_false] at h
        rcases List.mem_cons.mp h with h1 | h1
        · exact Or.inl h1
        · rcases ih true h1 with h2 | ⟨h3, h4⟩
          · exact Or.inl h2
          · exact Or.inr ⟨List.mem_cons_of_mem d h3, h4⟩
    · have hd2 : isPySpace d = false := by revert hd; cases isPySpace d <;> simp
      simp only [subSpaceAux, hd2, Bool.false_eq_true, if_false] at h
      rcases List.mem_cons.mp h with h1 | h1
      · exact Or.inr ⟨by rw [h1]; exact List.mem_cons_self d rest, by rw [h1]; exact hd2⟩
      · rcases ih false h1 with h2 | ⟨h3, h4⟩
        · exact Or.inl h2
        · exact Or.inr ⟨List.mem_cons_of_mem d h3, h4⟩

theorem mem_stripChars {c : Char} {l : List Char} (h : c ∈ stripChars l) : c ∈ l := by
  unfold stripChars at h
  rw [List.mem_reverse] at h
  have h2 := (List.dropWhile_sublist (l := (l.dropWhile isPySpace).reverse) isPySpace).mem h
  rw [List.mem_reverse] at h2
  exact (List.dropWhile_sublist isPySpace).mem h2

theorem subHyphAux_eq_self :
    ∀ (b : Bool) (l : List Char), (∀ c ∈ l, isHyphChar c = false) → subHyphAux b l = l := by
  intro b l
  induction l generalizing b with
  | nil => intro _; rfl
  | cons d rest ih =>
    intro h
    have hd := h d (List.mem_cons_self d rest)
    simp only [subHyphAux, hd, Bool.false_eq_true, if_false]
    rw [ih false (fun c hc => h c (List.mem_cons_of_mem d hc))]

theorem subSpaceAux_eq_self :
    ∀ l : List Char, (∀ c ∈ l, isPySpace c = true → c = ' ') →
      l.Chain' (fun a b => ¬ (isPySpace a = true ∧ isPySpace b = true)) →
      (subSpaceAux false l = l ∧
        ((∀ c ∈ l.head?, isPySpace c = false) → subSpaceAux true l = l)) := by
  intro l
  induction l with
  | nil => intro _ _; exact ⟨rfl, fun _ => rfl⟩
  | cons d rest ih =>
    intro hsp hch
    have hsp2 : ∀ c ∈ rest, isPySpace c = true → c = ' ' :=
      fun c hc => hsp c (List.mem_cons_of_mem d hc)
    have hch2 := hch.tail
    obtain ⟨ihf, iht⟩ := ih hsp2 hch2
    constructor
    · by_cases hd : isPySpace d = true
      · have hde : d = ' ' := hsp d (List.mem_cons_self d rest) hd
        simp only [subSpaceAux, hd, if_true, Bool.false_eq_true, if_false]
        have hhead : ∀ c ∈ rest.head?, isPySpace c = false := by
          intro c hc
          cases rest with
          | nil => simp at hc
          | cons e rest2 =>
            simp only [List.head?] at hc
            have := (List.chain'_cons'.mp hch).1 e (by simp [List.head?])
            have hc2 : e = c := by simpa using hc
            subst hc2
            simp only [hd, true_and] at this
            revert this
            cases isPySpace e <;> simp
        rw [iht hhead, hde]
      · have hd2 : isPySpace d = false := by revert hd; cases isPySpace d <;> simp
        simp only [subSpaceAux, hd2, Bool.false_eq_true, if_false]
        rw [ihf]
    · intro hh
      have hd2 : isPySpace d = false := hh d (by simp [List.head?])
      simp only [subSpaceAux, hd2, Bool.false_eq_true, if_false]
      rw [ihf]

theorem subSpaceAux_chain :
    ∀ l : List Char,
      (subSpaceAux false l).Chain' (fun a b => ¬ (isPySpace a = true ∧ isPySpace b = true)) ∧
      (subSpaceAux true l).Chain' (fun a b => ¬ (isPySpace a = true ∧ isPySpace b = true)) ∧
      (∀ c ∈ (subSpaceAux true l).head?, isPySpace c = false) := by
  intro l
  induction l with
  | nil => exact ⟨List.chain'_nil, List.chain'_nil, by simp [subSpaceAux]⟩
  | cons d rest ih =>
    obtain ⟨ihf, iht, ihh⟩ := ih
    by_cases hd : isPySpace d = true
    · refine ⟨?_, ?_, ?_⟩
      · simp only [subSpaceAux, hd, if_true, Bool.false_eq_true, if_false]
        exact List.chain'_cons'.mpr ⟨fun b hb => fun hcon => by
          have := ihh b hb; rw [this] at hcon; exact absurd hcon.2 (by simp), iht⟩
      · simp only [subSpaceAux, hd, if_true]
        exact iht
      · simp only [subSpaceAux, hd, if_true]
        exact ihh
    · have hd2 : isPySpace d = false := by revert hd; cases isPySpace d <;> simp
      refine ⟨?_, ?_, ?_⟩
      · simp only [subSpaceAux, hd2, Bool.false_eq_true, if_false]
        exact List.chain'_cons'.mpr
          ⟨fun b _ => fun hcon => by rw [hd2] at hcon; exact absurd hcon.1 (by simp), ihf⟩
      · simp only [subSpaceAux, hd2, Bool.false_eq_true, if_false]
        exact List.chain'_cons'.mpr
          ⟨fun b _ => fun hcon => by rw [hd2] at hcon; exact absurd hcon.1 (by simp), ihf⟩
      · simp only [subSpaceAux, hd2, Bool.false_eq_true, if_false]
        intro c hc
        have : d = c := by simpa [List.head?] using hc
        rw [← this]
        exact hd2

theorem headNotSpace_dropWhile :
    ∀ l : List Char, ∀ c ∈ (l.dropWhile isPySpace).head?, isPySpace c = false := by
  intro l
  induction l with
  | nil => simp
  | cons d rest ih =>
    by_cases hd : isPySpace d = true
    · simpa [List.dropWhile_cons, hd] using ih
    · have hd2 : isPySpace d = false := by revert hd; cases isPySpace d <;> simp
      intro c hc
      have : d = c := by simpa [List.dropWhile_cons, hd2, List.head?] using hc
      rw [← this]; exact hd2

theorem dropWhile_eq_self_of_head {l : List Char}
    (h : ∀ c ∈ l.head?, isPySpace c = false) : l.dropWhile isPySpace = l := by
  cases l with
  | nil => rfl
  | cons d rest =>
    have hd := h d (by simp [List.head?])
    simp [List.dropWhile_cons, hd]

theorem chain_stripChars {l : List Char}
    (h : l.Chain' (fun a b => ¬ (isPySpace a = true ∧ isPySpace b = true))) :
    (stripChars l).Chain' (fun a b => ¬ (isPySpace a = true ∧ isPySpace b = true)) := by
  unfold stripChars
  have h1 := h.suffix (List.dropWhile_suffix isPySpace)
  have h2 : ((l.dropWhile isPySpace).reverse).Chain'
      (fun a b => ¬ (isPySpace a = true ∧ isPySpace b = true)) := by
    rw [List.chain'_reverse]
    exact h1.imp (fun a b hab => fun hcon => hab ⟨hcon.2, hcon.1⟩)
  have h3 := h2.suffix (List.dropWhile_suffix isPySpace)
  rw [List.chain'_reverse]
  exact h3.imp (fun a b hab => fun hcon => hab ⟨hcon.2, hcon.1⟩)

theorem getLast_stripChars_not_space (l : List Char) :
    ∀ c ∈ (stripChars l).getLast?, isPySpace c = false := by
  intro c hc
  unfold stripChars at hc
  rw [List.getLast?_reverse] at hc
  exact headNotSpace_dropWhile _ c hc

theorem head_stripChars_not_space (l : List Char) :
    ∀ c ∈ (stripChars l).head?, isPySpace c = false := by
  intro c hc
  unfold stripChars at hc
  rw [List.head?_reverse] at hc
  obtain ⟨t, ht⟩ := List.dropWhile_suffix (l := (l.dropWhile isPySpace).reverse) isPySpace
  have hmne : (l.dropWhile isPySpace).reverse.dropWhile isPySpace ≠ [] := by
    intro hme
    rw [hme] at hc
    simp at hc
  have hlast : ((l.dropWhile isPySpace).reverse.dropWhile isPySpace).getLast?
      = ((l.dropWhile isPySpace).reverse).getLast? := by
    conv_rhs => rw [← ht]
    rw [List.getLast?_append]
    cases hml : ((l.dropWhile isPySpace).reverse.dropWhile isPySpace).getLast? with
    | none => exact absurd (List.getLast?_eq_none_iff.mp hml) hmne
    | some x => simp
  rw [hlast, List.getLast?_reverse] at hc
  exact headNotSpace_dropWhile l c hc

theorem stripChars_eq_self {l : List Char}
    (hh : ∀ c ∈ l.head?, isPySpace c = false)
    (hl : ∀ c ∈ l.getLast?, isPySpace c = false) : stripChars l = l := by
  unfold stripChars
  rw [dropWhile_eq_self_of_head hh]
  have : ∀ c ∈ l.reverse.head?, isPySpace c = false := by
    intro c hc
    rw [List.head?_reverse] at hc
    exact hl c hc
  rw [dropWhile_eq_self_of_head this, List.reverse_reverse]

theorem normCanon_normChars (l : List Char) : NormCanon (normChars l) := by
  have hmemS : ∀ c ∈ normChars l,
      ∃ d, d ∈ subSpaceAux false
        ((subHyphAux false l).filter (fun c2 => isWordChar c2 || isPySpace c2)) ∧
        c = Char.toLower d := by
    intro c hc
    unfold normChars at hc
    have hc2 := mem_stripChars hc
    obtain ⟨d, hd1, hd2⟩ := List.mem_map.mp hc2
    exact ⟨d, hd1, hd2.symm⟩
  have hdprop : ∀ d, d ∈ subSpaceAux false
      ((subHyphAux false l).filter (fun c2 => isWordChar c2 || isPySpace c2)) →
      (isHyphChar d = false ∧ (isWordChar d || isPySpace d) = true) := by
    intro d hd
    rcases mem_subSpaceAux false _ hd with h1 | ⟨h2, h3⟩
    · subst h1
      exact ⟨by decide, by decide⟩
    · have h4 := List.mem_filter.mp h2
      rcases mem_subHyphAux false l h4.1 with h5 | ⟨_, h6⟩
      · subst h5
        exact ⟨by decide, by decide⟩
      · exact ⟨h6, h4.2⟩
  refine ⟨?_, ?_, ?_, ?_, ?_, ?_, ?_⟩
  · intro c hc
    obtain ⟨d, hd, he⟩ := hmemS c hc
    rw [he, isHyphChar_toLower]
    exact (hdprop d hd).1
  · intro c hc
    obtain ⟨d, hd, he⟩ := hmemS c hc
    have h2 := (hdprop d hd).2
    rw [he]
    rcases Bool.or_eq_true_iff.mp h2 with hw | hs
    · rw [isWordChar_toLower d hw]
      simp
    · rw [isPySpace_toLower, hs]
      simp
  · intro c hc hsp
    obtain ⟨d, hd, he⟩ := hmemS c hc
    rcases mem_subSpaceAux false _ hd with h1 | ⟨_, h3⟩
    · rw [he, h1]
      decide
    · rw [he, isPySpace_toLower] at hsp
      rw [h3] at hsp
      cases hsp
  · intro c hc
    obtain ⟨d, _, he⟩ := hmemS c hc
    rw [he]
    exact toLower_idem d
  · unfold normChars
    apply chain_stripChars
    rw [List.chain'_map]
    refine ((subSpaceAux_chain _).1).imp ?_
    intro a b hab hcon
    rw [isPySpace_toLower, isPySpace_toLower] at hcon
    exact hab hcon
  · exact head_stripChars_not_space _
  · exact getLast_stripChars_not_space _

theorem normChars_eq_self {l : List Char} (h : NormCanon l) : normChars l = l := by
  obtain ⟨h1, h2, h3, h4, h5, h6, h7⟩ := h
  unfold normChars
  rw [subHyphAux_eq_self false l h1]
  rw [List.filter_eq_self.mpr h2]
  rw [(subSpaceAux_eq_self l h3 h5).1]
  have hmap : l.map Char.toLower = l := by
    calc l.map Char.toLower = l.map id := List.map_congr_left h4
    _ = l := List.map_id l
  rw [hmap]
  exact stripChars_eq_self h6 h7

theorem normChars_idem (l : List Char) : normChars (normChars l) = normChars l :=
  normChars_eq_self (normCanon_normChars l)

/-- Claim C7: `normalize` is idempotent over every input, including `None`
and the empty string, and `normalize(None) == normalize("") == ""`. -/
theorem claim_C7_normalize_idempotent :
    (∀ x : Option String,
      normalize_string (some (String.mk (normalize_string x))) = normalize_string x) ∧
    normalize_string none = [] ∧ normalize_string (some "") = [] := by
  refine ⟨?_, rfl, rfl⟩
  intro x
  have hkey : ∀ n : List Char, normChars n = n →
      normalize_string (some (String.mk n)) = n := by
    intro n hn
    show (if String.mk n = "" then [] else normChars (String.mk n).data) = n
    by_cases he : String.mk n = ""
    · rw [if_pos he]
      have : n = [] := congrArg String.data he
      rw [this]
    · rw [if_neg he]
      show normChars n = n
      exact hn
  cases x with
  | none => exact hkey [] rfl
  | some s =>
    show normalize_string (some (String.mk (normalize_string (some s)))) =
      normalize_string (some s)
    by_cases he : s = ""
    · subst he
      exact hkey [] rfl
    · have hs : normalize_string (some s) = normChars s.data := by
        show (if s = "" then [] else normChars s.data) = normChars s.data
        rw [if_neg he]
      rw [hs]
      exact hkey (normChars s.data) (normChars_idem s.data)

theorem lcsLen_nil_right : ∀ l : List Char, lcsLen l [] = 0 := by
  intro l
  cases l <;> rfl

theorem lcsLen_cons_cons (a b : Char) (as bs : List Char) :
    lcsLen (a :: as) (b :: bs) =
      if a = b then lcsLen as bs + 1 else max (lcsLen (a :: as) bs) (lcsLen as (b :: bs)) := rfl

theorem lcsLen_self : ∀ l : List Char, lcsLen l l = l.length := by
  intro l
  induction l with
  | nil => rfl
  | cons a as ih => rw [lcsLen_cons_cons, if_pos rfl, ih]; rfl

theorem lcsLen_le_left : ∀ x y : List Char, lcsLen x y ≤ x.length := by
  intro x
  induction x with
  | nil => intro y; exact Nat.le_refl 0
  | cons a as iha =>
    intro y
    induction y with
    | nil => rw [lcsLen_nil_right]; exact Nat.zero_le _
    | cons b bs ihb =>
      rw [lcsLen_cons_cons]
      by_cases hab : a = b
      · rw [if_pos hab]
        exact Nat.succ_le_succ (iha bs)
      · rw [if_neg hab]
        apply max_le ihb
        calc lcsLen as (b :: bs) ≤ as.length := iha (b :: bs)
        _ ≤ (a :: as).length := by simp [List.length_cons]
    
theorem lcsLen_le_right : ∀ x y : List Char, lcsLen x y ≤ y.length := by
  intro x
  induction x with
  | nil => intro y; exact Nat.zero_le _
  | cons a as iha =>
    intro y
    induction y with
    | nil => rw [lcsLen_nil_right]; exact Nat.le_refl 0
    | cons b bs ihb =>
      rw [lcsLen_cons_cons]
      by_cases hab : a = b
      · rw [if_pos hab]
        exact Nat.succ_le_succ (iha bs)
      · rw [if_neg hab]
        apply max_le
        · calc lcsLen (a :: as) bs ≤ bs.length := ihb
          _ ≤ (b :: bs).length := by simp [List.length_cons]
        · exact iha (b :: bs)

theorem lcsLen_comm : ∀ x y : List Char, lcsLen x y = lcsLen y x := by
  intro x
  induction x with
  | nil => intro y; rw [lcsLen_nil_right]; rfl
  | cons a as iha =>
    intro y
    induction y with
    | nil => rw [lcsLen_nil_right]; rfl
    | cons b bs ihb =>
      rw [lcsLen_cons_cons, lcsLen_cons_cons]
      by_cases hab : a = b
      · rw [if_pos hab, if_pos hab.symm, iha bs]
      · rw [if_neg hab, if_neg (fun h => hab h.symm)]
        rw [max_comm, ihb, iha (b :: bs)]

theorem strSim_self (l : List Char) : strSim l l = 1 := by
  unfold strSim
  by_cases h : l.length + l.length = 0
  · rw [if_pos h]
  · rw [if_neg h, lcsLen_self]
    have hne : ((l.length : ℚ) + (l.length : ℚ)) ≠ 0 := by
      intro hc
      apply h
      have := hc
      push_cast at this
      exact_mod_cast this
    rw [div_eq_one_iff_eq hne]
    ring

theorem strSim_nonneg (a b : List Char) : 0 ≤ strSim a b := by
  unfold strSim
  by_cases h : a.length + b.length = 0
  · rw [if_pos h]; norm_num
  · rw [if_neg h]
    apply div_nonneg
    · positivity
    · positivity

theorem strSim_le_one (a b : List Char) : strSim a b ≤ 1 := by
  unfold strSim
  by_cases h : a.length + b.length = 0
  · rw [if_pos h]
  · rw [if_neg h]
    have hpos : (0 : ℚ) < (a.length : ℚ) + (b.length : ℚ) := by
      have : 0 < a.length + b.length := Nat.pos_of_ne_zero h
      exact_mod_cast this
    rw [div_le_one hpos]
    have h1 := lcsLen_le_left a b
    have h2 := lcsLen_le_right a b
    have h1q : (lcsLen a b : ℚ) ≤ (a.length : ℚ) := by exact_mod_cast h1
    have h2q : (lcsLen a b : ℚ) ≤ (b.length : ℚ) := by exact_mod_cast h2
    linarith

theorem strSim_comm (a b : List Char) : strSim a b = strSim b a := by
  unfold strSim
  rw [lcsLen_comm, Nat.add_comm, add_comm (a.length : ℚ)]

theorem any_close_comm (l1 l2 : List ℚ) :
    (l1.any fun n1 => l2.any fun n2 => decide (|n1 - n2| < 1/10)) =
    (l2.any fun n1 => l1.any fun n2 => decide (|n1 - n2| < 1/10)) := by
  rw [Bool.eq_iff_iff]
  simp only [List.any_eq_true, decide_eq_true_eq]
  constructor
  · rintro ⟨x, hx, y, hy, hxy⟩
    exact ⟨y, hy, x, hx, by rw [abs_sub_comm]; exact hxy⟩
  · rintro ⟨x, hx, y, hy, hxy⟩
    exact ⟨y, hy, x, hx, by rw [abs_sub_comm]; exact hxy⟩

theorem similar_engines_comm (e1 e2 : String) :
    similar_engines e1 e2 = similar_engines e2 e1 := by
  unfold similar_engines
  by_cases h1 : e1 = ""
  · rw [if_pos (Or.inl h1), if_pos (Or.inr h1)]
  · by_cases h2 : e2 = ""
    · rw [if_pos (Or.inr h2), if_pos (Or.inl h2)]
    · rw [if_neg (show ¬ (e1 = "" ∨ e2 = "") by tauto)]
      rw [if_neg (show ¬ (e2 = "" ∨ e1 = "") by tauto)]
      simp only
      rw [any_close_comm]
      by_cases hany :
          ((findNums (lowerChars e2)).any fun n1 =>
            (findNums (lowerChars e1)).any fun n2 => decide (|n1 - n2| < 1/10)) = true
      · rw [if_pos hany, if_pos hany]
      · rw [if_neg hany, if_neg hany]
        rw [Finset.inter_comm, Finset.union_comm]

theorem splitWordsAux_ne_nil_of_cur :
    ∀ (l cur : List Char), cur ≠ [] → splitWordsAux cur l ≠ [] := by
  intro l
  induction l with
  | nil =>
    intro cur hcur
    simp only [splitWordsAux, hcur, if_false]
    simp
  | cons c rest ih =>
    intro cur hcur
    by_cases hc : isPySpace c = true
    · simp only [splitWordsAux, hc, if_true, hcur, if_false]
      simp
    · have hc2 : isPySpace c = false := by revert hc; cases isPySpace c <;> simp
      simp only [splitWordsAux, hc2, Bool.false_eq_true, if_false]
      exact ih (c :: cur) (by simp)

theorem splitWords_ne_nil {l : List Char} (hne : l ≠ [])
    (hh : ∀ c ∈ l.head?, isPySpace c = false) : splitWords l ≠ [] := by
  cases l with
  | nil => exact absurd rfl hne
  | cons c rest =>
    have hc := hh c (by simp [List.head?])
    unfold splitWords
    simp only [splitWordsAux, hc, Bool.false_eq_true, if_false]
    exact splitWordsAux_ne_nil_of_cur rest [c] (by simp)

theorem similar_engines_of_norm_eq (e1 e2 : String) (h1 : e1 ≠ "") (h2 : e2 ≠ "")
    (heq : normalize_string (some e1) = normalize_string (some e2))
    (hne : normalize_string (some e1) ≠ []) :
    similar_engines e1 e2 = .ok true := by
  unfold similar_engines
  rw [if_neg (show ¬ (e1 = "" ∨ e2 = "") by tauto)]
  simp only
  by_cases hany :
      ((findNums (lowerChars e1)).any fun n1 =>
        (findNums (lowerChars e2)).any fun n2 => decide (|n1 - n2| < 1/10)) = true
  · rw [if_pos hany]
  · rw [if_neg hany]
    rw [← heq]
    rw [Finset.inter_self, Finset.union_self]
    have hsne : splitWords (normalize_string (some e1)) ≠ [] := by
      apply splitWords_ne_nil hne
      have hn : normalize_string (some e1) = normChars e1.data := by
        show (if e1 = "" then [] else normChars e1.data) = normChars e1.data
        rw [if_neg h1]
      rw [hn]
      exact (normCanon_normChars e1.data).2.2.2.2.2.1
    have hcard : 1 ≤ (splitWords (normalize_string (some e1))).toFinset.card := by
      rw [Nat.one_le_iff_ne_zero, Ne, Finset.card_eq_zero]
      intro hc
      apply hsne
      rw [← List.toFinset_eq_empty_iff]
      exact hc
    by_cases hc2 : 2 ≤ (splitWords (normalize_string (some e1))).toFinset.card
    · rw [if_pos hc2]
    · rw [if_neg hc2]
      have hc1 : (splitWords (normalize_string (some e1))).toFinset.card = 1 := by omega
      rw [hc1]
      norm_num

/-- Claim C6: `score` is symmetric — `score(A,B) == score(B,A)` for every
pair of attribute records, including the engine-similarity and string-ratio
sub-computations (`similar_engines_comm`, `strSim_comm`). -/
theorem claim_C6_score_symmetric (a b : Attrs) :
    calculate_similarity a b = calculate_similarity b a := by
  simp only [calculate_similarity]
  rw [Bool.and_comm (strTruthy b.brand) (strTruthy a.brand)]
  rw [Bool.and_comm (strTruthy b.model) (strTruthy a.model)]
  rw [Bool.and_comm (strTruthy b.year) (strTruthy a.year)]
  rw [Bool.and_comm (strTruthy b.edition) (strTruthy a.edition)]
  rw [Bool.and_comm (strTruthy b.engine) (strTruthy a.engine)]
  rw [strSim_comm (normalize_string b.brand) (normalize_string a.brand)]
  rw [strSim_comm (normalize_string b.model) (normalize_string a.model)]
  rw [strSim_comm (normalize_string b.edition) (normalize_string a.edition)]
  rw [similar_engines_comm (b.engine.getD "") (a.engine.getD "")]
  have hy : (if b.year = a.year then (1 : ℚ)/5 else 0) =
      (if a.year = b.year then (1 : ℚ)/5 else 0) := by
    by_cases h : a.year = b.year
    · rw [if_pos h, if_pos h.symm]
    · rw [if_neg h, if_neg (fun hc => h hc.symm)]
  rw [hy]

theorem strTruthy_eq_true_iff {o : Option String} :
    strTruthy o = true ↔ ∃ s, o = some s ∧ s ≠ "" := by
  cases o with
  | none => simp [strTruthy]
  | some s =>
    simp only [strTruthy, decide_eq_true_eq]
    constructor
    · intro h; exact ⟨s, rfl, h⟩
    · rintro ⟨t, ht, hne⟩
      cases ht
      exact hne

theorem simFinal_self {w : ℚ} (hw : 0 < w) : simFinal w w = 1 := by
  unfold simFinal
  rw [if_pos hw]
  exact div_self (ne_of_gt hw)

theorem simFinal_bounds {s w : ℚ} (h0 : 0 ≤ s) (h1 : s ≤ w) :
    0 ≤ simFinal s w ∧ simFinal s w ≤ 1 := by
  unfold simFinal
  by_cases hw : 0 < w
  · rw [if_pos hw]
    exact ⟨div_nonneg h0 (le_of_lt hw), (div_le_one hw).mpr h1⟩
  · rw [if_neg hw]
    norm_num

theorem weight_nonneg (p : Prop) [Decidable p] {w : ℚ} (hw : 0 ≤ w) :
    0 ≤ if p then w else 0 := by
  split
  · exact hw
  · exact le_refl 0

theorem contribution_bounds (p : Prop) [Decidable p] {sim w : ℚ}
    (h0 : 0 ≤ sim) (h1 : sim ≤ 1) (hw : 0 ≤ w) :
    0 ≤ (if p then sim * w else 0) ∧ (if p then sim * w else 0) ≤ (if p then w else 0) := by
  by_cases hp : p
  · rw [if_pos hp, if_pos hp]
    exact ⟨mul_nonneg h0 hw, mul_le_of_le_one_left hw h1⟩
  · rw [if_neg hp, if_neg hp]
    exact ⟨le_refl 0, le_refl 0⟩

theorem year_contribution_bounds (p q : Prop) [Decidable p] [Decidable q] :
    0 ≤ (if p then (if q then (1 : ℚ)/5 else 0) else 0) ∧
    (if p then (if q then (1 : ℚ)/5 else 0) else 0) ≤ (if p then (1 : ℚ)/5 else 0) := by
  by_cases hp : p <;> by_cases hq : q <;> simp [hp, hq]

theorem engine_contribution_bounds (b : Bool) :
    0 ≤ (if b = true then (1 : ℚ) else 0) * (1/10) ∧
    (if b = true then (1 : ℚ) else 0) * (1/10) ≤ 1/10 := by
  cases b <;> norm_num

/-- Claim C5 (amended): when brand, model, edition and engine are identical
after normalization, the optional year strings are equal as written, and
co-present engines do not both normalize to empty, `score` is exactly 1.0 on
every pair with at least one co-present field; `score` is exactly 0.0 when no
field is present on both sides; and every score the function returns lies in
`[0,1]`. -/
theorem claim_C5_amended :
    (∀ v c : Attrs,
      normalize_string v.brand = normalize_string c.brand →
      normalize_string v.model = normalize_string c.model →
      v.year = c.year →
      normalize_string v.edition = normalize_string c.edition →
      normalize_string v.engine = normalize_string c.engine →
      (strTruthy v.engine = true → strTruthy c.engine = true →
        normalize_string v.engine ≠ []) →
      ((strTruthy v.brand && strTruthy c.brand) ||
       (strTruthy v.model && strTruthy c.model) ||
       (strTruthy v.year && strTruthy c.year) ||
       (strTruthy v.edition && strTruthy c.edition) ||
       (strTruthy v.engine && strTruthy c.engine)) = true →
      calculate_similarity v c = .ok 1) ∧
    (∀ v c : Attrs,
      ((strTruthy v.brand && strTruthy c.brand) ||
       (strTruthy v.model && strTruthy c.model) ||
       (strTruthy v.year && strTruthy c.year) ||
       (strTruthy v.edition && strTruthy c.edition) ||
       (strTruthy v.engine && strTruthy c.engine)) = false →
      calculate_similarity v c = .ok 0) ∧
    (∀ (v c : Attrs) (q : ℚ), calculate_similarity v c = .ok q → 0 ≤ q ∧ q ≤ 1) := by
  refine ⟨?_, ?_, ?_⟩
  · intro v c hb hm hy he hg hprov hsome
    simp only [calculate_similarity]
    rw [hb, hm, he, strSim_self, strSim_self, strSim_self]
    simp only [hy, eq_self_iff_true, if_true, one_mul]
    by_cases hgp : (strTruthy v.engine && strTruthy c.engine) = true
    · rw [if_pos hgp]
      obtain ⟨hgt1, hgt2⟩ := Bool.and_eq_true_iff.mp hgp
      obtain ⟨e1, he1, hne1⟩ := strTruthy_eq_true_iff.mp hgt1
      obtain ⟨e2, he2, hne2⟩ := strTruthy_eq_true_iff.mp hgt2
      have hnorm : normalize_string (some e1) = normalize_string (some e2) := by
        rw [← he1, ← he2]; exact hg
      have hnn : normalize_string (some e1) ≠ [] := by
        rw [← he1]; exact hprov hgt1 hgt2
      have hsim := similar_engines_of_norm_eq e1 e2 hne1 hne2 hnorm hnn
      rw [he1, he2]
      simp only [Option.getD_some, hsim]
      simp only [if_true, eq_self_iff_true, one_mul]
      have hpos : (0 : ℚ) <
          ((((if (strTruthy v.brand && strTruthy c.brand) = true then (1 : ℚ)/4 else 0) +
             (if (strTruthy v.model && strTruthy c.model) = true then (1 : ℚ)/4 else 0)) +
             (if (strTruthy c.year && strTruthy c.year) = true then (1 : ℚ)/5 else 0)) +
             (if (strTruthy v.edition && strTruthy c.edition) = true then (1 : ℚ)/5 else 0)) +
             1/10 := by
        have w1 := weight_nonneg ((strTruthy v.brand && strTruthy c.brand) = true)
          (show (0:ℚ) ≤ 1/4 by norm_num)
        have w2 := weight_nonneg ((strTruthy v.model && strTruthy c.model) = true)
          (show (0:ℚ) ≤ 1/4 by norm_num)
        have w3 := weight_nonneg ((strTruthy c.year && strTruthy c.year) = true)
          (show (0:ℚ) ≤ 1/5 by norm_num)
        have w4 := weight_nonneg ((strTruthy v.edition && strTruthy c.edition) = true)
          (show (0:ℚ) ≤ 1/5 by norm_num)
        linarith
      rw [simFinal_self hpos]
    · rw [if_neg hgp]
      have hgf : (strTruthy v.engine && strTruthy c.engine) = false := by
        revert hgp; cases (strTruthy v.engine && strTruthy c.engine) <;> simp
      rw [hgf] at hsome
      simp only [Bool.or_false] at hsome
      have hpos : (0 : ℚ) <
          (((if (strTruthy v.brand && strTruthy c.brand) = true then (1 : ℚ)/4 else 0) +
            (if (strTruthy v.model && strTruthy c.model) = true then (1 : ℚ)/4 else 0)) +
            (if (strTruthy c.year && strTruthy c.year) = true then (1 : ℚ)/5 else 0)) +
            (if (strTruthy v.edition && strTruthy c.edition) = true then (1 : ℚ)/5 else 0) := by
        have w1 := weight_nonneg ((strTruthy v.brand && strTruthy c.brand) = true)
          (show (0:ℚ) ≤ 1/4 by norm_num)
        have w2 := weight_nonneg ((strTruthy v.model && strTruthy c.model) = true)
          (show (0:ℚ) ≤ 1/4 by norm_num)
        have w3 := weight_nonneg ((strTruthy c.year && strTruthy c.year) = true)
          (show (0:ℚ) ≤ 1/5 by norm_num)
        have w4 := weight_nonneg ((strTruthy v.edition && strTruthy c.edition) = true)
          (show (0:ℚ) ≤ 1/5 by norm_num)
        rcases Bool.or_eq_true_iff.mp hsome with h1 | h4
        · rcases Bool.or_eq_true_iff.mp h1 with h2 | h3
          · rcases Bool.or_eq_true_iff.mp h2 with h5 | h6
            · rw [if_pos h5] at w1 ⊢; linarith
            · rw [if_pos h6] at w2 ⊢; linarith
          · rw [hy] at h3
            rw [if_pos h3] at w3 ⊢; linarith
        · rw [if_pos h4] at w4 ⊢; linarith
      rw [simFinal_self hpos]
  · intro v c hnone
    simp only [calculate_similarity]
    simp only [Bool.or_eq_false_iff] at hnone
    obtain ⟨⟨⟨⟨h1, h2⟩, h3⟩, h4⟩, h5⟩ := hnone
    simp only [h1, h2, h3, h4, h5, Bool.false_eq_true, if_false]
    show Except.ok (simFinal (0 + 0 + 0 + 0) (0 + 0 + 0 + 0)) = Except.ok 0
    norm_num [simFinal]
  · intro v c q h
    simp only [calculate_similarity] at h
    have hb := contribution_bounds ((strTruthy v.brand && strTruthy c.brand) = true)
      (strSim_nonneg (normalize_string v.brand) (normalize_string c.brand))
      (strSim_le_one (normalize_string v.brand) (normalize_string c.brand))
      (show (0:ℚ) ≤ 1/4 by norm_num)
    have hm := contribution_bounds ((strTruthy v.model && strTruthy c.model) = true)
      (strSim_nonneg (normalize_string v.model) (normalize_string c.model))
      (strSim_le_one (normalize_string v.model) (normalize_string c.model))
      (show (0:ℚ) ≤ 1/4 by norm_num)
    have hy := year_contribution_bounds ((strTruthy v.year && strTruthy c.year) = true)
      (v.year = c.year)
    have he := contribution_bounds ((strTruthy v.edition && strTruthy c.edition) = true)
      (strSim_nonneg (normalize_string v.edition) (normalize_string c.edition))
      (strSim_le_one (normalize_string v.edition) (normalize_string c.edition))
      (show (0:ℚ) ≤ 1/5 by norm_num)
    by_cases hgp : (strTruthy v.engine && strTruthy c.engine) = true
    · rw [if_pos hgp] at h
      cases hse : similar_engines (v.engine.getD "") (c.engine.getD "") with
      | error u => rw [hse] at h; exact Except.noConfusion h
      | ok b =>
        rw [hse] at h
        have hq : q = simFinal
            ((((if (strTruthy v.brand && strTruthy c.brand) = true then
                strSim (normalize_string v.brand) (normalize_string c.brand) * (1/4) else 0) +
              (if (strTruthy v.model && strTruthy c.model) = true then
                strSim (normalize_string v.model) (normalize_string c.model) * (1/4) else 0)) +
              (if (strTruthy v.year && strTruthy c.year) = true then
                (if v.year = c.year then (1:ℚ)/5 else 0) else 0) +
              (if (strTruthy v.edition && strTruthy c.edition) = true then
                strSim (normalize_string v.edition) (normalize_string c.edition) * (1/5) else 0)) +
              (if b = true then (1:ℚ) else 0) * (1/10))
            ((((if (strTruthy v.brand && strTruthy c.brand) = true then (1:ℚ)/4 else 0) +
              (if (strTruthy v.model && strTruthy c.model) = true then (1:ℚ)/4 else 0)) +
              (if (strTruthy v.year && strTruthy c.year) = true then (1:ℚ)/5 else 0) +
              (if (strTruthy v.edition && strTruthy c.edition) = true then (1:ℚ)/5 else 0)) +
              1/10) := by
          cases h
          ring_nf
        have hgb := engine_contribution_bounds b
        rw [hq]
        apply simFinal_bounds
        · linarith [hb.1, hm.1, hy.1, he.1, hgb.1]
        · linarith [hb.2, hm.2, hy.2, he.2, hgb.2]
    · rw [if_neg hgp] at h
      have hq2 : q = simFinal
          ((((if (strTruthy v.brand && strTruthy c.brand) = true then
              strSim (normalize_string v.brand) (normalize_string c.brand) * (1/4) else 0) +
            (if (strTruthy v.model && strTruthy c.model) = true then
              strSim (normalize_string v.model) (normalize_string c.model) * (1/4) else 0)) +
            (if (strTruthy v.year && strTruthy c.year) = true then
              (if v.year = c.year then (1:ℚ)/5 else 0) else 0)) +
            (if (strTruthy v.edition && strTruthy c.edition) = true then
              strSim (normalize_string v.edition) (normalize_string c.edition) * (1/5) else 0))
          ((((if (strTruthy v.brand && strTruthy c.brand) = true then (1:ℚ)/4 else 0) +
            (if (strTruthy v.model && strTruthy c.model) = true then (1:ℚ)/4 else 0)) +
            (if (strTruthy v.year && strTruthy c.year) = true then (1:ℚ)/5 else 0)) +
            (if (strTruthy v.edition && strTruthy c.edition) = true then (1:ℚ)/5 else 0)) := by
        cases h
        rfl
      rw [hq2]
      apply simFinal_bounds
      · linarith [hb.1, hm.1, hy.1, he.1]
      · linarith [hb.2, hm.2, hy.2, he.2]

/-- Claim C5 counterexample: a pair of listings whose five fields are all
identical (hence identical after normalization) with brand present on both
sides, whose engine `"!!"` normalizes to the empty string — `score` raises
`ZeroDivisionError` (modelled `Except.error ()`) instead of returning 1.0. -/
theorem claim_C5_counterexample :
    calculate_similarity
        ⟨some "x", none, none, none, some "!!"⟩
        ⟨some "x", none, none, none, some "!!"⟩ = Except.error () ∧
    calculate_similarity
        ⟨some "x", none, none, none, some "!!"⟩
        ⟨some "x", none, none, none, some "!!"⟩ ≠ Except.ok 1 := by
  constructor
  · decide
  · decide

/-- Witness for the amended claim C5 at concrete inputs: a fully equal (after
normalization) pair scores exactly 1, a pair with no co-present field scores
exactly 0, and a returned score lies in `[0,1]`. -/
theorem claim_C5_amended_witness :
    calculate_similarity
        ⟨some "Honda", some "Civic", some "2020", some "LX", some "1.5L"⟩
        ⟨some "HONDA", some " Civic ", some "2020", some "lx", some "1.5l"⟩ = Except.ok 1 ∧
    calculate_similarity
        ⟨some "A", none, none, none, none⟩
        ⟨none, some "B", none, none, none⟩ = Except.ok 0 ∧
    ((0 : ℚ) ≤ 1/2 ∧ (1/2 : ℚ) ≤ 1) := by
  refine ⟨?_, ?_, ?_⟩
  · exact claim_C5_amended.1 _ _ (by decide) (by decide) (by decide) (by decide) (by decide)
      (fun _ _ => by decide) (by decide)
  · exact claim_C5_amended.2.1 _ _ (by decide)
  · exact claim_C5_amended.2.2
      ⟨some "ab", none, none, none, none⟩
      ⟨some "ac", none, none, none, none⟩
      (1/2) (by with_unfolding_all decide)

theorem exactLoop_none {a : Attrs} :
    ∀ l : List CanonicalRec, (∀ r ∈ l, is_exact_match a r.attrs = .ok false) →
      exactLoop a l = .ok none := by
  intro l
  induction l with
  | nil => intro _; rfl
  | cons r rest ih =>
    intro h
    have hr := h r (List.mem_cons_self r rest)
    unfold exactLoop
    rw [hr]
    exact ih (fun r2 hr2 => h r2 (List.mem_cons_of_mem r hr2))

theorem exactLoop_first {a : Attrs} :
    ∀ (l : List CanonicalRec) (i : Nat) (ci : CanonicalRec),
      (∀ r ∈ l.take i, is_exact_match a r.attrs = .ok false) →
      l.get? i = some ci →
      is_exact_match a ci.attrs = .ok true →
      exactLoop a l = .ok (some ci.id) := by
  intro l
  induction l with
  | nil => intro i ci _ hidx; simp at hidx
  | cons r rest ih =>
    intro i ci hpre hidx hci
    cases i with
    | zero =>
      have : r = ci := by simpa using hidx
      subst this
      unfold exactLoop
      rw [hci]
    | succ j =>
      have hr := hpre r (by simp [List.take])
      unfold exactLoop
      rw [hr]
      apply ih j ci
      · intro r2 hr2
        exact hpre r2 (by simp [List.take]; exact Or.inr hr2)
      · simpa using hidx
      · exact hci

theorem fuzzyLoop_none {a : Attrs} {th : ℚ} :
    ∀ l : List CanonicalRec,
      (∀ r ∈ l, ∃ s, calculate_similarity a r.attrs = .ok s ∧ s < th) →
      fuzzyLoop a th l = .ok none := by
  intro l
  induction l with
  | nil => intro _; rfl
  | cons r rest ih =>
    intro h
    obtain ⟨s, hs, hlt⟩ := h r (List.mem_cons_self r rest)
    unfold fuzzyLoop
    rw [hs]
    show (if th ≤ s then Except.ok (some r.id) else fuzzyLoop a th rest) = Except.ok none
    rw [if_neg (by exact not_le.mpr hlt)]
    exact ih (fun r2 hr2 => h r2 (List.mem_cons_of_mem r hr2))

theorem fuzzyLoop_first {a : Attrs} {th : ℚ} :
    ∀ (l : List CanonicalRec) (i : Nat) (ci : CanonicalRec) (s : ℚ),
      (∀ r ∈ l.take i, ∃ s2, calculate_similarity a r.attrs = .ok s2 ∧ s2 < th) →
      l.get? i = some ci →
      calculate_similarity a ci.attrs = .ok s →
      th ≤ s →
      fuzzyLoop a th l = .ok (some ci.id) := by
  intro l
  induction l with
  | nil => intro i ci s _ hidx; simp at hidx
  | cons r rest ih =>
    intro i ci s hpre hidx hsc hth
    cases i with
    | zero =>
      have : r = ci := by simpa using hidx
      subst this
      unfold fuzzyLoop
      rw [hsc]
      show (if th ≤ s then Except.ok (some r.id) else fuzzyLoop a th rest) = Except.ok (some r.id)
      rw [if_pos hth]
    | succ j =>
      obtain ⟨s2, hs2, hlt2⟩ := hpre r (by simp [List.take])
      unfold fuzzyLoop
      rw [hs2]
      show (if th ≤ s2 then Except.ok (some r.id) else fuzzyLoop a th rest) = Except.ok (some ci.id)
      rw [if_neg (by exact not_le.mpr hlt2)]
      apply ih j ci s
      · intro r2 hr2
        exact hpre r2 (by simp [List.take]; exact Or.inr hr2)
      · simpa using hidx
      · exact hsc
      · exact hth

theorem findMatch_narrow_exact {a : Attrs} {db : List CanonicalRec} {i : Nat}
    {ci : CanonicalRec}
    (hq : (strTruthy a.brand || strTruthy a.model || strTruthy a.year) = true)
    (hpre : ∀ r ∈ (db.filter (narrowPred a)).take i, is_exact_match a r.attrs = .ok false)
    (hidx : (db.filter (narrowPred a)).get? i = some ci)
    (hci : is_exact_match a ci.attrs = .ok true) :
    find_matching_canonical a db = some ci.id := by
  unfold find_matching_canonical
  simp only [findMatchE]
  rw [if_pos hq]
  rw [exactLoop_first _ i ci hpre hidx hci]

theorem findMatch_narrow_fuzzy {a : Attrs} {db : List CanonicalRec} {i : Nat}
    {ci : CanonicalRec} {s : ℚ}
    (hq : (strTruthy a.brand || strTruthy a.model || strTruthy a.year) = true)
    (hexact : ∀ r ∈ db.filter (narrowPred a), is_exact_match a r.attrs = .ok false)
    (hpre : ∀ r ∈ (db.filter (narrowPred a)).take i,
      ∃ s2, calculate_similarity a r.attrs = .ok s2 ∧ s2 < 9/10)
    (hidx : (db.filter (narrowPred a)).get? i = some ci)
    (hsc : calculate_similarity a ci.attrs = .ok s)
    (hth : 9/10 ≤ s) :
    find_matching_canonical a db = some ci.id := by
  unfold find_matching_canonical
  simp only [findMatchE]
  rw [if_pos hq]
  rw [exactLoop_none _ hexact]
  rw [fuzzyLoop_first _ i ci s hpre hidx hsc hth]

theorem findMatch_broad_fuzzy {a : Attrs} {db : List CanonicalRec} {i : Nat}
    {ci : CanonicalRec} {s : ℚ}
    (hb : strTruthy a.brand = true) (hm : strTruthy a.model = true)
    (hexact : ∀ r ∈ db.filter (narrowPred a), is_exact_match a r.attrs = .ok false)
    (hfuzz : ∀ r ∈ db.filter (narrowPred a),
      ∃ s2, calculate_similarity a r.attrs = .ok s2 ∧ s2 < 9/10)
    (hpre : ∀ r ∈ ((db.filter (broadPred a)).take 50).take i,
      ∃ s2, calculate_similarity a r.attrs = .ok s2 ∧ s2 < 95/100)
    (hidx : ((db.filter (broadPred a)).take 50).get? i = some ci)
    (hsc : calculate_similarity a ci.attrs = .ok s)
    (hth : 95/100 ≤ s) :
    find_matching_canonical a db = some ci.id := by
  unfold find_matching_canonical
  simp only [findMatchE]
  rw [if_pos (show (strTruthy a.brand || strTruthy a.model || strTruthy a.year) = true
    by rw [hb]; rfl)]
  rw [exactLoop_none _ hexact]
  rw [fuzzyLoop_none _ hfuzz]
  rw [if_pos (show (strTruthy a.brand && strTruthy a.model) = true by rw [hb, hm]; rfl)]
  rw [fuzzyLoop_first _ i ci s hpre hidx hsc hth]

/-- Claim C1 counterexample: a listing and two narrow candidates, both
scoring at or above the 0.90 threshold and neither an exact match; the second
scores strictly higher (44/45 vs 19/20), yet `find_match` returns the first
candidate in insertion order, not the highest scorer. -/
theorem claim_C1_counterexample :
    find_matching_canonical
        ⟨some "Honda", some "Civic", some "2020", some "abcd", some "1.5"⟩
        [mkCanon "one" ⟨some "Honda", some "Civic", some "2020", some "abcf", some "1.5"⟩,
         mkCanon "two" ⟨some "Honda", some "Civic", some "2020", some "abcde", some "1.5"⟩] =
      some "one" ∧
    is_exact_match ⟨some "Honda", some "Civic", some "2020", some "abcd", some "1.5"⟩
        ⟨some "Honda", some "Civic", some "2020", some "abcf", some "1.5"⟩ = .ok false ∧
    is_exact_match ⟨some "Honda", some "Civic", some "2020", some "abcd", some "1.5"⟩
        ⟨some "Honda", some "Civic", some "2020", some "abcde", some "1.5"⟩ = .ok false ∧
    calculate_similarity ⟨some "Honda", some "Civic", some "2020", some "abcd", some "1.5"⟩
        ⟨some "Honda", some "Civic", some "2020", some "abcf", some "1.5"⟩ = .ok (19/20) ∧
    calculate_similarity ⟨some "Honda", some "Civic", some "2020", some "abcd", some "1.5"⟩
        ⟨some "Honda", some "Civic", some "2020", some "abcde", some "1.5"⟩ = .ok (44/45) ∧
    (9/10 : ℚ) ≤ 19/20 ∧ (19/20 : ℚ) < 44/45 := by
  with_unfolding_all decide

/-- Claim C1 (amended): in the fuzzy paths, when no candidate satisfies the
exact predicate, `find_match` returns the FIRST candidate in candidate order
whose weighted score reaches the phase threshold (0.90 narrow, 0.95 broad),
not necessarily the highest-scoring candidate. -/
theorem claim_C1_amended :
    (∀ (a : Attrs) (db : List CanonicalRec) (i : Nat) (ci : CanonicalRec) (s : ℚ),
      (strTruthy a.brand || strTruthy a.model || strTruthy a.year) = true →
      (∀ r ∈ db.filter (narrowPred a), is_exact_match a r.attrs = .ok false) →
      (∀ r ∈ (db.filter (narrowPred a)).take i,
        ∃ s2, calculate_similarity a r.attrs = .ok s2 ∧ s2 < 9/10) →
      (db.filter (narrowPred a)).get? i = some ci →
      calculate_similarity a ci.attrs = .ok s →
      9/10 ≤ s →
      find_matching_canonical a db = some ci.id) ∧
    (∀ (a : Attrs) (db : List CanonicalRec) (i : Nat) (ci : CanonicalRec) (s : ℚ),
      strTruthy a.brand = true → strTruthy a.model = true →
      (∀ r ∈ db.filter (narrowPred a), is_exact_match a r.attrs = .ok false) →
      (∀ r ∈ db.filter (narrowPred a),
        ∃ s2, calculate_similarity a r.attrs = .ok s2 ∧ s2 < 9/10) →
      (∀ r ∈ ((db.filter (broadPred a)).take 50).take i,
        ∃ s2, calculate_similarity a r.attrs = .ok s2 ∧ s2 < 95/100) →
      ((db.filter (broadPred a)).take 50).get? i = some ci →
      calculate_similarity a ci.attrs = .ok s →
      95/100 ≤ s →
      find_matching_canonical a db = some ci.id) := by
  constructor
  · intro a db i ci s hq hexact hpre hidx hsc hth
    exact findMatch_narrow_fuzzy hq hexact hpre hidx hsc hth
  · intro a db i ci s hb hm hexact hfuzz hpre hidx hsc hth
    exact findMatch_broad_fuzzy hb hm hexact hfuzz hpre hidx hsc hth

/-- Witness for the amended claim C1: the narrow fuzzy path returns the first
candidate at the 0.90 threshold, and the broad fuzzy path (narrow candidates
empty because the stored document has no year) returns the first candidate at
the 0.95 threshold. -/
theorem claim_C1_amended_witness :
    find_matching_canonical
        ⟨some "Honda", some "Civic", some "2020", some "abcd", some "1.5"⟩
        [mkCanon "one" ⟨some "Honda", some "Civic", some "2020", some "abcf", some "1.5"⟩,
         mkCanon "two" ⟨some "Honda", some "Civic", some "2020", some "abcde", some "1.5"⟩] =
      some "one" ∧
    find_matching_canonical
        ⟨some "Honda", some "Civic", some "2020", some "LX", some "1.5"⟩
        [mkCanon "b1" ⟨some "Honda", some "Civic", none, some "LX", some "1.5"⟩] =
      some "b1" := by
  constructor
  · exact claim_C1_amended.1
      ⟨some "Honda", some "Civic", some "2020", some "abcd", some "1.5"⟩
      [mkCanon "one" ⟨some "Honda", some "Civic", some "2020", some "abcf", some "1.5"⟩,
       mkCanon "two" ⟨some "Honda", some "Civic", some "2020", some "abcde", some "1.5"⟩]
      0
      (mkCanon "one" ⟨some "Honda", some "Civic", some "2020", some "abcf", some "1.5"⟩)
      (19/20)
      (by with_unfolding_all decide)
      (by with_unfolding_all decide)
      (by simp)
      (by with_unfolding_all decide)
      (by with_unfolding_all decide)
      (by norm_num)
  · exact claim_C1_amended.2
      ⟨some "Honda", some "Civic", some "2020", some "LX", some "1.5"⟩
      [mkCanon "b1" ⟨some "Honda", some "Civic", none, some "LX", some "1.5"⟩]
      0
      (mkCanon "b1" ⟨some "Honda", some "Civic", none, some "LX", some "1.5"⟩)
      1
      (by with_unfolding_all decide)
      (by with_unfolding_all decide)
      (by with_unfolding_all decide)
      (by
        intro r hr
        rw [show ([mkCanon "b1" ⟨some "Honda", some "Civic", none, some "LX", some "1.5"⟩].filter
            (narrowPred ⟨some "Honda", some "Civic", some "2020", some "LX", some "1.5"⟩)) = []
          from by with_unfolding_all decide] at hr
        simp at hr)
      (by simp)
      (by with_unfolding_all decide)
      (by with_unfolding_all decide)
      (by norm_num)

/-- Claim C2 counterexample: the candidate satisfies the exact-match
predicate (brand "a-b" and "a b" normalize equal), but the narrow query
compares the raw brand case-insensitively and the broad query is a substring
match, so neither phase ever sees the candidate — `find_match` returns
`none`, not the exact-matching candidate. -/
theorem claim_C2_counterexample :
    is_exact_match ⟨some "a-b", some "m", none, none, none⟩
        ⟨some "a b", some "m", none, none, none⟩ = .ok true ∧
    find_matching_canonical ⟨some "a-b", some "m", none, none, none⟩
        [mkCanon "e" ⟨some "a b", some "m", none, none, none⟩] = none := by
  with_unfolding_all decide

/-- Claim C2 (amended): among the candidates the narrow query returns
(brand/model case-insensitively equal to the listing's raw values, year equal
when the listing has one), `find_match` returns the first candidate
satisfying the exact-match predicate, before any fuzzy scoring and regardless
of any candidate's weighted score, provided the exact checks on the earlier
narrow candidates return false (rather than raising). -/
theorem claim_C2_amended (a : Attrs) (db : List CanonicalRec) (i : Nat)
    (ci : CanonicalRec)
    (hb : strTruthy a.brand = true)
    (hpre : ∀ r ∈ (db.filter (narrowPred a)).take i, is_exact_match a r.attrs = .ok false)
    (hidx : (db.filter (narrowPred a)).get? i = some ci)
    (hci : is_exact_match a ci.attrs = .ok true) :
    find_matching_canonical a db = some ci.id := by
  apply findMatch_narrow_exact _ hpre hidx hci
  rw [hb]
  rfl

/-- Witness for the amended claim C2: the first narrow candidate that passes
the exact predicate is returned even though a later candidate scores 1.0. -/
theorem claim_C2_amended_witness :
    find_matching_canonical
        ⟨some "Honda", some "Civic", some "2020", none, none⟩
        [mkCanon "x1" ⟨some "Honda", some "Civic", some "2020", some "EX", none⟩,
         mkCanon "x2" ⟨some "Honda", some "Civic", some "2020", none, none⟩] =
      some "x1" := by
  exact claim_C2_amended
    ⟨some "Honda", some "Civic", some "2020", none, none⟩
    [mkCanon "x1" ⟨some "Honda", some "Civic", some "2020", some "EX", none⟩,
     mkCanon "x2" ⟨some "Honda", some "Civic", some "2020", none, none⟩]
    0
    (mkCanon "x1" ⟨some "Honda", some "Civic", some "2020", some "EX", none⟩)
    (by with_unfolding_all decide)
    (by simp)
    (by with_unfolding_all decide)
    (by with_unfolding_all decide)

/-- Claim C3, code behaviour at the failing input: with no matching canonical
and a storage layer whose `insert_one` raises, the body of
`find_or_create_canonical_vehicle` raises (`find_or_create_E` is the code
before its `try/except`), but the function's broad `except` clause converts
the error into `None` with the state unchanged — the storage error does NOT
propagate to the caller. -/
theorem claim_C3_error_swallowed :
    find_or_create_E 3 "new"
        ⟨⟨some "Honda", some "Civic", some "2020", none, none⟩, none, none, none, none⟩
        ⟨[], [], true⟩ = Except.error () ∧
    find_or_create_canonical_vehicle 3 "new"
        ⟨⟨some "Honda", some "Civic", some "2020", none, none⟩, none, none, none, none⟩
        ⟨[], [], true⟩ = (none, ⟨[], [], true⟩) := by
  with_unfolding_all decide

/-- Claim C4, code behaviour at the failing input: after
`merge(source, target)` completes, the source document's status is `merged`,
yet a subsequent `find_match` over the candidate pool still returns the
source id — neither the narrow nor the broad candidate query filters out
merged groups (no `status` condition appears in either query). -/
theorem claim_C4_merged_group_matched :
    ((lookupCanonical "s" (merge_canonical_vehicles 5 "s" "t"
        ⟨[mkCanon "s" ⟨some "Honda", some "Civic", some "2020", none, none⟩,
          mkCanon "t" ⟨some "Honda", some "Civic", some "2020", none, none⟩],
         [⟨"l1", some "s", "active", some 100, some 1, none⟩], false⟩).snd).map
      (fun r => r.status) = some "merged") ∧
    find_matching_canonical ⟨some "Honda", some "Civic", some "2020", none, none⟩
      (merge_canonical_vehicles 5 "s" "t"
        ⟨[mkCanon "s" ⟨some "Honda", some "Civic", some "2020", none, none⟩,
          mkCanon "t" ⟨some "Honda", some "Civic", some "2020", none, none⟩],
         [⟨"l1", some "s", "active", some 100, some 1, none⟩], false⟩).snd.canonical_vehicles =
      some "s" := by
  with_unfolding_all decide

/-- Claim C8: for a group whose three active linked listings are priced
85000000, 87000000 and 84500000, `refresh` sets min 84500000, max 87000000,
avg exactly 85500000, total_listings 3 and active_listings equal to
total_listings. -/
theorem claim_C8_stats :
    (lookupCanonical "g" (update_canonical_vehicle_stats 7 "g"
        ⟨[mkCanon "g" ⟨some "Honda", some "Civic", some "2020", none, none⟩],
         [⟨"v1", some "g", "active", some 85000000, some 100, none⟩,
          ⟨"v2", some "g", "active", some 87000000, some 150, none⟩,
          ⟨"v3", some "g", "active", some 84500000, none, none⟩], false⟩)).map
      (fun r => (r.min_price, r.max_price, r.avg_price, r.total_listings, r.active_listings)) =
    some (some 84500000, some 87000000, some 85500000, 3, 3) := by
  norm_num [update_canonical_vehicle_stats, lookupCanonical, applyStats, updateFirst, mkCanon,
    priceTruthy, listMin, listMax, sortPrices, insertSorted, List.filter, List.filterMap,
    List.find?]

theorem updateFirst_find? (cid : String) (f : CanonicalRec → CanonicalRec)
    (hf : ∀ r, (f r).id = r.id) :
    ∀ l : List CanonicalRec,
      (updateFirst (fun r => r.id == cid) f l).find? (fun r => r.id == cid) =
        (l.find? (fun r => r.id == cid)).map f := by
  intro l
  induction l with
  | nil => rfl
  | cons r rest ih =>
    by_cases hr : (r.id == cid) = true
    · unfold updateFirst
      rw [if_pos hr]
      rw [List.find?_cons_of_pos (p := fun x : CanonicalRec => x.id == cid) _ (by show ((f r).id == cid) = true; rw [hf r]; exact hr)]
      rw [List.find?_cons_of_pos (p := fun x : CanonicalRec => x.id == cid) _ hr]
      rfl
    · have hr2 : (r.id == cid) = false := by revert hr; cases (r.id == cid) <;> simp
      unfold updateFirst
      rw [if_neg (by rw [hr2]; simp)]
      rw [List.find?_cons_of_neg (p := fun x : CanonicalRec => x.id == cid) _ (by show ¬ (r.id == cid) = true; rw [hr2]; simp)]
      rw [List.find?_cons_of_neg (p := fun x : CanonicalRec => x.id == cid) _ (by show ¬ (r.id == cid) = true; rw [hr2]; simp)]
      exact ih

theorem updateFirst_find?_disjoint (s t : String) (hst : s ≠ t)
    (f : CanonicalRec → CanonicalRec) (hf : ∀ r, (f r).id = r.id) :
    ∀ l : List CanonicalRec,
      (updateFirst (fun r => r.id == t) f l).find? (fun r => r.id == s) =
        l.find? (fun r => r.id == s) := by
  intro l
  induction l with
  | nil => rfl
  | cons r rest ih =>
    by_cases hr : (r.id == t) = true
    · have hrt : r.id = t := beq_iff_eq.mp hr
      have hrs : (r.id == s) = false := by
        rw [hrt]
        exact beq_eq_false_iff_ne.mpr (fun h => hst h.symm)
      unfold updateFirst
      rw [if_pos hr]
      rw [List.find?_cons_of_neg (p := fun x : CanonicalRec => x.id == s) _ (by show ¬ ((f r).id == s) = true; rw [hf r, hrs]; simp)]
      rw [List.find?_cons_of_neg (p := fun x : CanonicalRec => x.id == s) _ (by show ¬ (r.id == s) = true; rw [hrs]; simp)]
    · have hr2 : (r.id == t) = false := by revert hr; cases (r.id == t) <;> simp
      unfold updateFirst
      rw [if_neg (by rw [hr2]; simp)]
      by_cases hs : (r.id == s) = true
      · rw [List.find?_cons_of_pos (p := fun x : CanonicalRec => x.id == s) _ hs,
          List.find?_cons_of_pos (p := fun x : CanonicalRec => x.id == s) _ hs]
      · have hs2 : (r.id == s) = false := by revert hs; cases (r.id == s) <;> simp
        rw [List.find?_cons_of_neg (p := fun x : CanonicalRec => x.id == s) _ (by show ¬ (r.id == s) = true; rw [hs2]; simp)]
        rw [List.find?_cons_of_neg (p := fun x : CanonicalRec => x.id == s) _ (by show ¬ (r.id == s) = true; rw [hs2]; simp)]
        exact ih

theorem applyStats_id (now : Nat) (L : List ListingRec) (r : CanonicalRec) :
    (applyStats now L r).id = r.id := by
  simp only [applyStats]
  split <;> split <;> rfl

theorem applyStats_status (now : Nat) (L : List ListingRec) (r : CanonicalRec) :
    (applyStats now L r).status = r.status := by
  simp only [applyStats]
  split <;> split <;> rfl

theorem applyStats_updated_at (now : Nat) (L : List ListingRec) (r : CanonicalRec) :
    (applyStats now L r).updated_at = now := by
  simp only [applyStats]
  split <;> split <;> rfl

theorem applyStats_median (now : Nat) (L : List ListingRec) (r : CanonicalRec)
    (hp : L.filterMap
      (fun l => if priceTruthy l.price_numeric then l.price_numeric else none) ≠ []) :
    (applyStats now L r).median_price =
      some ((sortPrices (L.filterMap
          (fun l => if priceTruthy l.price_numeric then l.price_numeric else none))).getD
        ((L.filterMap
          (fun l => if priceTruthy l.price_numeric then l.price_numeric else none)).length / 2)
        0) := by
  simp only [applyStats]
  have hpe : ¬ ((L.filterMap
      (fun l => if priceTruthy l.price_numeric then l.price_numeric else none)).isEmpty = true) := by
    rw [List.isEmpty_iff]
    exact hp
  rw [if_neg hpe]
  split <;> rfl

/-- Claim C9 counterexample: a group with two active listings priced 100 and
200 — an even-length price list.  `refresh` stores `sorted(prices)[1] = 200`,
the UPPER-middle element, not the lower-middle element 100 the claim
prescribes. -/
theorem claim_C9_counterexample :
    (lookupCanonical "g" (update_canonical_vehicle_stats 7 "g"
        ⟨[mkCanon "g" ⟨some "A", some "B", none, none, none⟩],
         [⟨"v1", some "g", "active", some 100, none, none⟩,
          ⟨"v2", some "g", "active", some 200, none, none⟩], false⟩)).map
      (fun r => r.median_price) = some (some 200) ∧
    sortPrices [(100 : ℚ), 200] = [100, 200] ∧ (200 : ℚ) ≠ 100 := by
  with_unfolding_all decide

/-- Claim C9 (amended): for every non-empty price list over a group's active
listings (in particular every even-length one), `refresh` sets
`median_price` to the element at zero-based index `len/2` of the sorted
price list — the UPPER-middle element on even lengths, not the lower-middle
one. -/
theorem claim_C9_amended (now : Nat) (cid : String) (st : DBState) (r : CanonicalRec)
    (hr : lookupCanonical cid st = some r)
    (hpr : (st.vehicles.filter
        (fun l => l.canonical_vehicle_id == some cid && l.status == "active")).filterMap
        (fun l => if priceTruthy l.price_numeric then l.price_numeric else none) ≠ [])
    (heven : ((st.vehicles.filter
        (fun l => l.canonical_vehicle_id == some cid && l.status == "active")).filterMap
        (fun l => if priceTruthy l.price_numeric then l.price_numeric else none)).length % 2
      = 0) :
    (lookupCanonical cid (update_canonical_vehicle_stats now cid st)).map
      (fun r2 => r2.median_price) =
    some (some ((sortPrices ((st.vehicles.filter
        (fun l => l.canonical_vehicle_id == some cid && l.status == "active")).filterMap
        (fun l => if priceTruthy l.price_numeric then l.price_numeric else none))).getD
      (((st.vehicles.filter
        (fun l => l.canonical_vehicle_id == some cid && l.status == "active")).filterMap
        (fun l => if priceTruthy l.price_numeric then l.price_numeric else none)).length / 2)
      0)) := by
  have hact : st.vehicles.filter
      (fun l => l.canonical_vehicle_id == some cid && l.status == "active") ≠ [] := by
    intro h
    rw [h] at hpr
    exact hpr rfl
  simp only [update_canonical_vehicle_stats]
  rw [if_neg (by rw [List.isEmpty_iff]; exact hact)]
  simp only [lookupCanonical]
  rw [updateFirst_find? cid _ (fun r2 => applyStats_id now _ r2) st.canonical_vehicles]
  have hr2 : st.canonical_vehicles.find? (fun x => x.id == cid) = some r := hr
  rw [hr2]
  simp only [Option.map_some']
  rw [applyStats_median now _ r hpr]

/-- Witness for the amended claim C9 at a concrete even-length state. -/
theorem claim_C9_amended_witness :
    (lookupCanonical "g" (update_canonical_vehicle_stats 7 "g"
        ⟨[mkCanon "g" ⟨some "A", some "B", none, none, none⟩],
         [⟨"v1", some "g", "active", some 100, none, none⟩,
          ⟨"v2", some "g", "active", some 200, none, none⟩], false⟩)).map
      (fun r2 => r2.median_price) = some (some 200) := by
  have h := claim_C9_amended 7 "g"
      ⟨[mkCanon "g" ⟨some "A", some "B", none, none, none⟩],
       [⟨"v1", some "g", "active", some 100, none, none⟩,
        ⟨"v2", some "g", "active", some 200, none, none⟩], false⟩
      (mkCanon "g" ⟨some "A", some "B", none, none, none⟩)
      (by with_unfolding_all decide)
      (by with_unfolding_all decide)
      (by with_unfolding_all decide)
  rw [h]
  with_unfolding_all decide

/-- Claim C10: when no listing references the source group,
`merge(source, target)` returns false, yet it still mutates state — the
source document's status becomes `merged` with a fresh `updated_at`, and the
resulting state is exactly the target-statistics refresh of the state with
the source so marked. -/
theorem claim_C10_merge_noop_mutates
    (now : Nat) (source target : String) (st : DBState) (r : CanonicalRec)
    (hnone : ∀ l ∈ st.vehicles, ¬ l.canonical_vehicle_id = some source)
    (hr : lookupCanonical source st = some r) :
    (merge_canonical_vehicles now source target st).fst = false ∧
    (lookupCanonical source (merge_canonical_vehicles now source target st).snd).map
      (fun r2 => (r2.status, r2.updated_at)) = some ("merged", now) ∧
    (merge_canonical_vehicles now source target st).snd =
      update_canonical_vehicle_stats now target
        { st with canonical_vehicles :=
            (updateFirst (fun x => x.id == source)
              (fun x => { x with status := "merged", updated_at := now })
              st.canonical_vehicles) } := by
  have hfilter : st.vehicles.filter (fun l => l.canonical_vehicle_id == some source) = [] := by
    rw [List.filter_eq_nil_iff]
    intro l hl
    simp only [beq_iff_eq]
    exact fun hc => hnone l hl (by exact_mod_cast hc)
  have hmap : st.vehicles.map
      (fun l => if l.canonical_vehicle_id == some source then
        { l with canonical_vehicle_id := some target } else l) = st.vehicles := by
    have : st.vehicles.map
        (fun l => if l.canonical_vehicle_id == some source then
          { l with canonical_vehicle_id := some target } else l) = st.vehicles.map id := by
      apply List.map_congr_left
      intro l hl
      rw [if_neg]
      · rfl
      · simp only [beq_iff_eq]
        exact fun hc => hnone l hl (by exact_mod_cast hc)
    rw [this, List.map_id]
  have hsnd : (merge_canonical_vehicles now source target st).snd =
      update_canonical_vehicle_stats now target
        { st with canonical_vehicles :=
            (updateFirst (fun x => x.id == source)
              (fun x => { x with status := "merged", updated_at := now })
              st.canonical_vehicles) } := by
    simp only [merge_canonical_vehicles]
    rw [hmap]
  refine ⟨?_, ?_, hsnd⟩
  · simp only [merge_canonical_vehicles, hfilter]
    by_cases hst : source = target
    · rw [if_pos hst]
      rfl
    · rw [if_neg hst]
      rfl
  · rw [hsnd]
    have hlook2 : lookupCanonical source
        { st with canonical_vehicles :=
            (updateFirst (fun x => x.id == source)
              (fun x => { x with status := "merged", updated_at := now })
              st.canonical_vehicles) } =
        some { r with status := "merged", updated_at := now } := by
      simp only [lookupCanonical]
      rw [updateFirst_find? source
        (fun x => { x with status := "merged", updated_at := now })
        (fun r2 => rfl) st.canonical_vehicles]
      have hr2 : st.canonical_vehicles.find? (fun x => x.id == source) = some r := hr
      rw [hr2]
      rfl
    simp only [update_canonical_vehicle_stats]
    by_cases hemp : (({ st with canonical_vehicles :=
        (updateFirst (fun x => x.id == source)
          (fun x => { x with status := "merged", updated_at := now })
          st.canonical_vehicles) } : DBState).vehicles.filter
        (fun l => l.canonical_vehicle_id == some target && l.status == "active")).isEmpty = true
    · rw [if_pos hemp]
      rw [hlook2]
      rfl
    · rw [if_neg hemp]
      have hne : source ≠ target := by
        intro hst
        apply hemp
        rw [List.isEmpty_iff, List.filter_eq_nil_iff]
        intro l hl
        simp only [Bool.and_eq_true, beq_iff_eq]
        rintro ⟨hc, _⟩
        exact hnone l hl (by rw [hc, hst])
      simp only [lookupCanonical]
      rw [updateFirst_find?_disjoint source target hne _
        (fun r2 => applyStats_id now _ r2)]
      have hlook3 : (({ st with canonical_vehicles :=
          (updateFirst (fun x => x.id == source)
            (fun x => { x with status := "merged", updated_at := now })
            st.canonical_vehicles) } : DBState).canonical_vehicles).find?
          (fun x => x.id == source) =
          some { r with status := "merged", updated_at := now } := hlook2
      rw [hlook3]
      rfl

/-- Witness for claim C10 at a concrete state: one source group, no
listings — merge returns false, yet the source is marked merged and the
state equals the stats-refreshed marked state. -/
theorem claim_C10_witness :
    (merge_canonical_vehicles 5 "s" "t"
        ⟨[mkCanon "s" ⟨some "A", none, none, none, none⟩], [], false⟩).fst = false ∧
    (lookupCanonical "s" (merge_canonical_vehicles 5 "s" "t"
        ⟨[mkCanon "s" ⟨some "A", none, none, none, none⟩], [], false⟩).snd).map
      (fun r2 => (r2.status, r2.updated_at)) = some ("merged", 5) ∧
    (merge_canonical_vehicles 5 "s" "t"
        ⟨[mkCanon "s" ⟨some "A", none, none, none, none⟩], [], false⟩).snd =
      update_canonical_vehicle_stats 5 "t"
        { (⟨[mkCanon "s" ⟨some "A", none, none, none, none⟩], [], false⟩ : DBState) with
            canonical_vehicles :=
              (updateFirst (fun x => x.id == "s")
                (fun x => { x with status := "merged", updated_at := 5 })
                (⟨[mkCanon "s" ⟨some "A", none, none, none, none⟩], [],
                  false⟩ : DBState).canonical_vehicles) } :=
  claim_C10_merge_noop_mutates 5 "s" "t" _ (mkCanon "s" ⟨some "A", none, none, none, none⟩)
    (by simp) (by with_unfolding_all decide)
